import Mathlib

/-!
Verification development for the anomaly-detection dashboard
(`data_generator.py`, `ml_pipeline.py`, `config.py`).

The generators draw from two process-global pseudo-random generators that are
seeded once (`np.random.seed(RANDOM_SEED)`, `random.seed(RANDOM_SEED)`), so
after seeding every draw is a pure function of the seed and the position of the
draw.  We model that seeded state as a stream of naturals plus a cursor; a run
with a given seed corresponds to a run with the stream that the seed determines.
`uuid.uuid4()` is *not* fed by these generators: it reads operating-system
entropy, which we model as a separate stream of strings indexed by row number.
-/

/-- The seeded pseudo-random state: a stream of raw draws and a cursor. -/
structure Rng where
  stream : Nat → Nat
  pos : Nat

/-- Take the next raw draw and advance the cursor. -/
def Rng.next (r : Rng) : Nat × Rng :=
  (r.stream r.pos, ⟨r.stream, r.pos + 1⟩)

/-- `np.random.randint(lo, hi)`: a draw in `[lo, hi)`. -/
def randint (lo hi : Nat) (k : Nat) : Nat := lo + k % (hi - lo)

/-- `np.random.uniform(a, b)`: a draw in `[a, b)`. -/
def unifSample (a b : ℚ) (k : Nat) : ℚ := a + (b - a) * ((k % 1000 : Nat) : ℚ) / 1000

/-- `np.random.exponential(scale)`: a nonnegative draw. -/
def expSample (scale : ℚ) (k : Nat) : ℚ := scale * ((k % 10000 : Nat) : ℚ) / 100

/-- `np.random.normal(mean, std)`: a draw that can fall on either side of the mean. -/
def normalSample (mean std : ℚ) (k : Nat) : ℚ :=
  mean + std * (((k % 2001 : Nat) : ℚ) - 1000) / 250

/-- `np.clip(x, lo, hi)`. -/
def clipQ (lo hi x : ℚ) : ℚ := max lo (min x hi)

/-- Python's `round(x, ·)` rounds half to even (banker's rounding). -/
def pyRound (x : ℚ) : ℤ :=
  if x - ⌊x⌋ = 1/2 then (if 2 ∣ ⌊x⌋ then ⌊x⌋ else ⌊x⌋ + 1) else round x

/-- `round(x, 3)`. -/
def pyRound3 (x : ℚ) : ℚ := (pyRound (x * 1000) : ℚ) / 1000

/-- `round(x, 2)`. -/
def pyRound2 (x : ℚ) : ℚ := (pyRound (x * 100) : ℚ) / 100

/-- `random.choices(xs, weights)[0]`: walk the cumulative weights. -/
def pickWeighted : List (String × Nat) → Nat → String
  | [], _ => ""
  | (x, w) :: rest, k => if k < w then x else pickWeighted rest (k - w)

/-- Total of the weights. -/
def totalWeight (xs : List (String × Nat)) : Nat := (xs.map Prod.snd).sum

/-- A weighted categorical draw from the seeded source. -/
def choicesW (xs : List (String × Nat)) (r : Rng) : String × Rng :=
  let (k, r') := r.next
  (pickWeighted xs (k % totalWeight xs), r')

/- Timestamps are whole minutes since the midnight opening day 0; day 0 is a
Monday, matching pandas `dayofweek` with Monday = 0. -/

/-- Midnight of the calendar day containing `t`. -/
def floorDay (t : ℤ) : ℤ := 1440 * Int.ediv t 1440

/-- `.dt.hour`. -/
def hourOf (t : ℤ) : ℤ := Int.ediv (Int.emod t 1440) 60

/-- `.dt.dayofweek` (Monday = 0). -/
def dowOf (t : ℤ) : ℤ := Int.emod (Int.ediv t 1440) 7

/-- `t.replace(hour := h, minute := m, second := 0, microsecond := 0)`. -/
def replaceHM (t : ℤ) (h m : ℤ) : ℤ := floorDay t + 60 * h + m

/-- `config.FILE_TYPES`. -/
def FILE_TYPES : List String := ["PDF", "Excel", "Database export", "CSV", "Doc", "PPT", "Image"]

/-- `config.ACTIONS`. -/
def ACTIONS : List String := ["view", "download"]

/-- `DataGenerator.file_type_weights`. -/
def file_type_weights : List Nat := [35, 20, 5, 15, 10, 8, 7]

/-- `DataGenerator.action_weights`. -/
def action_weights : List Nat := [75, 25]

/-- One generated file-access event (a row of the generated frame). -/
structure Event where
  event_id : String
  user_id : String
  file_type : String
  file_size_MB : ℚ
  access_time : ℤ
  action : String
deriving DecidableEq, Repr

/-- `DataGenerator.random_user`: `f"employee{np.random.randint(100, 999)}"`. -/
def random_user (r : Rng) : String × Rng :=
  let (k, r') := r.next
  ("employee" ++ toString (randint 100 999 k), r')

/-- `DataGenerator._generate_file_size`: a type-specific exponential base with a
multiplicative bump for downloads, clipped to `[0.1, 120]`. -/
def generate_file_size (file_type action : String) (r : Rng) : ℚ × Rng :=
  let (k, r') := r.next
  let base :=
    if file_type = "Database export" then expSample 15 k + 10
    else if file_type = "Excel" ∨ file_type = "PPT" ∨ file_type = "Doc" then expSample 3 k + 1
    else if file_type = "PDF" ∨ file_type = "CSV" then expSample 2 k + 1/2
    else expSample (3/2) k + 1/5
  let multiplier : ℚ := if action = "download" then 13/10 else 1
  (clipQ (1/10) 120 (base * multiplier), r')

/-- One loop iteration of `DataGenerator.generate_normal_events`.  `eid` is the
row's `str(uuid.uuid4())`, drawn from the unseeded entropy stream. -/
def normalRow (r : Rng) (eid : String) (start : ℤ) (days : Nat) : Event × Rng :=
  let (ku, r) := r.next
  let user := "employee" ++ toString (randint 100 999 ku)
  let (ft, r) := choicesW (FILE_TYPES.zip file_type_weights) r
  let (ac, r) := choicesW (ACTIONS.zip action_weights) r
  let (kd, r) := r.next
  let day_offset := kd % days
  let (kh, r) := r.next
  let hour := ⌊clipQ 8 19 (normalSample 13 (5/2) kh)⌋
  let (km, r) := r.next
  let minute := km % 60
  let t := start + ((day_offset : ℤ) * 1440 + hour * 60 + (minute : ℤ))
  let (size, r) := generate_file_size ft ac r
  ({ event_id := eid, user_id := user, file_type := ft,
     file_size_MB := pyRound3 size, access_time := t, action := ac }, r)

/-- The remaining `count` iterations of the normal-event loop, with `i` the row
index into the uuid entropy stream. -/
def normalRows (uuids : Nat → String) (start : ℤ) (days : Nat) :
    Nat → Nat → Rng → List Event × Rng
  | _, 0, r => ([], r)
  | i, c + 1, r =>
    let (e, r') := normalRow r (uuids i) start days
    let (rest, r'') := normalRows uuids start days (i + 1) c r'
    (e :: rest, r'')

/-- `DataGenerator.generate_normal_events` with an explicit `start_date`.  The
`start_date is None` branch (which reads `datetime.now()`) is not taken. -/
def generate_normal_events (r : Rng) (uuids : Nat → String) (n : Nat) (start : ℤ)
    (days : Nat) : List Event × Rng :=
  normalRows uuids start days 0 n r

/-- One loop iteration of `DataGenerator._generate_mass_downloads`. -/
def massRow (r : Rng) (eid : String) (base : ℤ) (user : String) : Event × Rng :=
  let (ko, r) := r.next
  let offset_min := ko % 180
  let t := base + (offset_min : ℤ)
  let (ft, r) := choicesW [("PDF", 70), ("Database export", 20), ("Excel", 10)] r
  let (ks, r) := r.next
  let size :=
    if ft = "Database export" then unifSample 50 300 ks
    else if ft = "PDF" then unifSample 5 50 ks
    else unifSample 10 80 ks
  ({ event_id := eid, user_id := user, file_type := ft,
     file_size_MB := pyRound3 size, access_time := t, action := "download" }, r)

/-- The remaining `count` iterations of the mass-download loop. -/
def massRows (uuids : Nat → String) (base : ℤ) (user : String) :
    Nat → Nat → Rng → List Event × Rng
  | _, 0, r => ([], r)
  | i, c + 1, r =>
    let (e, r') := massRow r (uuids i) base user
    let (rest, r'') := massRows uuids base user (i + 1) c r'
    (e :: rest, r'')

/-- `DataGenerator._generate_mass_downloads`: one fixed suspicious user (drawn
only when `label_user` is absent) and a base time of 02:00 on the start date. -/
def generate_mass_downloads (r : Rng) (uuids : Nat → String) (n : Nat) (start : ℤ)
    (label_user : Option String) : List Event × Rng :=
  let (susp_user, r') :=
    match label_user with
    | some u => (u, r)
    | none =>
      let (k, r') := r.next
      ("employee" ++ toString (randint 900 999 k), r')
  let base := replaceHM start 2 0
  massRows uuids base susp_user 0 n r'

/-- One loop iteration of `DataGenerator._generate_generic_suspicious`; the
per-row user draw happens only when `label_user` is absent. -/
def genericRow (r : Rng) (eid : String) (start : ℤ) (label_user : Option String) :
    Event × Rng :=
  let (user, r) :=
    match label_user with
    | some u => (u, r)
    | none => random_user r
  let (kd, r) := r.next
  let day_offset := kd % 3
  let (km, r) := r.next
  let minute := km % 60
  let t := replaceHM (start - 1440 * (day_offset : ℤ)) 3 (minute : ℤ)
  let (kf, r) := r.next
  let ft := FILE_TYPES.getD (kf % FILE_TYPES.length) ""
  let (ks, r) := r.next
  let size := unifSample 10 150 ks
  ({ event_id := eid, user_id := user, file_type := ft,
     file_size_MB := pyRound3 size, access_time := t, action := "download" }, r)

/-- The remaining `count` iterations of the generic-suspicious loop. -/
def genericRows (uuids : Nat → String) (start : ℤ) (label_user : Option String) :
    Nat → Nat → Rng → List Event × Rng
  | _, 0, r => ([], r)
  | i, c + 1, r =>
    let (e, r') := genericRow r (uuids i) start label_user
    let (rest, r'') := genericRows uuids start label_user (i + 1) c r'
    (e :: rest, r'')

/-- `DataGenerator._generate_generic_suspicious`. -/
def generate_generic_suspicious (r : Rng) (uuids : Nat → String) (n : Nat) (start : ℤ)
    (label_user : Option String) : List Event × Rng :=
  genericRows uuids start label_user 0 n r

/-- `DataGenerator.generate_suspicious_events` with an explicit `start_date`. -/
def generate_suspicious_events (r : Rng) (uuids : Nat → String) (n : Nat) (start : ℤ)
    (label_user : Option String) (pattern : String) : List Event × Rng :=
  if pattern = "mass_downloads" then generate_mass_downloads r uuids n start label_user
  else generate_generic_suspicious r uuids n start label_user

/-- An event with its `event_id` erased: the fields that come exclusively from
the seeded generators and the call parameters. -/
def eraseId (e : Event) : String × String × ℚ × ℤ × String :=
  (e.user_id, e.file_type, e.file_size_MB, e.access_time, e.action)

/-! ### Arithmetic facts about rounding, clipping and the samplers -/

theorem floor_le_pyRound (x : ℚ) : ⌊x⌋ ≤ pyRound x := by
  unfold pyRound
  split
  · split <;> omega
  · rw [round_eq]
    exact Int.floor_le_floor (by linarith)

theorem pyRound_le_floor_add_half (x : ℚ) : pyRound x ≤ ⌊x + 1/2⌋ := by
  unfold pyRound
  split
  · next h =>
    have hx : x = (⌊x⌋ : ℚ) + 1/2 := by linarith
    have hfl : ⌊x + 1/2⌋ = ⌊x⌋ + 1 := by
      have hx2 : x + 1/2 = ((⌊x⌋ + 1 : ℤ) : ℚ) := by push_cast; linarith
      rw [hx2, Int.floor_intCast]
    rw [hfl]
    split <;> omega
  · rw [round_eq]

theorem pyRound_le_of_le {x : ℚ} {k : ℤ} (h : x ≤ k) : pyRound x ≤ k := by
  refine le_trans (pyRound_le_floor_add_half x) ?_
  have h1 : ⌊x + 1/2⌋ ≤ ⌊(k : ℚ) + 1/2⌋ := Int.floor_le_floor (by linarith)
  have h2 : ⌊((k : ℚ)) + 1/2⌋ = k + ⌊(1/2 : ℚ)⌋ := Int.floor_int_add k _
  have h3 : ⌊(1/2 : ℚ)⌋ = 0 := by norm_num
  omega

theorem le_pyRound_of_le {k : ℤ} {x : ℚ} (h : (k : ℚ) ≤ x) : k ≤ pyRound x :=
  le_trans (Int.le_floor.mpr h) (floor_le_pyRound x)

theorem pyRound3_mem {lo hi x : ℚ} (a b : ℤ) (ha : (a : ℚ) / 1000 = lo)
    (hb : (b : ℚ) / 1000 = hi) (h1 : lo ≤ x) (h2 : x ≤ hi) :
    lo ≤ pyRound3 x ∧ pyRound3 x ≤ hi := by
  unfold pyRound3
  constructor
  · have := le_pyRound_of_le (k := a) (x := x * 1000) (by
      have : (a : ℚ) ≤ x * 1000 := by rw [← ha] at h1; linarith
      exact this)
    have hcast : (a : ℚ) ≤ (pyRound (x * 1000) : ℚ) := by exact_mod_cast this
    rw [← ha]
    linarith
  · have := pyRound_le_of_le (x := x * 1000) (k := b) (by
      have : x * 1000 ≤ (b : ℚ) := by rw [← hb] at h2; linarith
      exact this)
    have hcast : (pyRound (x * 1000) : ℚ) ≤ (b : ℚ) := by exact_mod_cast this
    rw [← hb]
    linarith

theorem pyRound2_mem {x : ℚ} (h1 : 0 ≤ x) (h2 : x < 100) :
    0 ≤ pyRound2 x ∧ pyRound2 x ≤ 100 := by
  unfold pyRound2
  constructor
  · have := le_pyRound_of_le (k := 0) (x := x * 100) (by positivity)
    have hcast : (0 : ℚ) ≤ (pyRound (x * 100) : ℚ) := by exact_mod_cast this
    positivity
  · have := pyRound_le_of_le (x := x * 100) (k := 10000) (by push_cast; linarith)
    have hcast : (pyRound (x * 100) : ℚ) ≤ (10000 : ℚ) := by exact_mod_cast this
    linarith

theorem clipQ_mem {lo hi : ℚ} (h : lo ≤ hi) (x : ℚ) :
    lo ≤ clipQ lo hi x ∧ clipQ lo hi x ≤ hi :=
  ⟨le_max_left _ _, max_le h (min_le_right _ _)⟩

theorem unifSample_mem {a b : ℚ} (h : a ≤ b) (k : Nat) :
    a ≤ unifSample a b k ∧ unifSample a b k ≤ b := by
  unfold unifSample
  have h1 : (0 : ℚ) ≤ ((k % 1000 : Nat) : ℚ) := by positivity
  have h2 : ((k % 1000 : Nat) : ℚ) ≤ 999 := by
    have hk : k % 1000 ≤ 999 := Nat.le_of_lt_succ (Nat.mod_lt k (by norm_num))
    exact_mod_cast hk
  have hba : (0 : ℚ) ≤ b - a := by linarith
  constructor
  · nlinarith
  · nlinarith

theorem expSample_nonneg {scale : ℚ} (h : 0 ≤ scale) (k : Nat) : 0 ≤ expSample scale k := by
  unfold expSample
  positivity

theorem generate_file_size_mem (ft ac : String) (r : Rng) :
    1/10 ≤ (generate_file_size ft ac r).1 ∧ (generate_file_size ft ac r).1 ≤ 120 := by
  unfold generate_file_size
  exact clipQ_mem (by norm_num) _

/-! ### Row-level facts about the three event loops -/

theorem normalRow_size (r : Rng) (eid : String) (start : ℤ) (days : Nat) :
    1/10 ≤ (normalRow r eid start days).1.file_size_MB ∧
      (normalRow r eid start days).1.file_size_MB ≤ 120 := by
  simp only [normalRow, Rng.next]
  exact pyRound3_mem 100 120000 (by norm_num) (by norm_num)
    (generate_file_size_mem _ _ _).1 (generate_file_size_mem _ _ _).2

theorem massRow_fields (r : Rng) (eid : String) (base : ℤ) (user : String) :
    (massRow r eid base user).1.action = "download" ∧
    (massRow r eid base user).1.user_id = user ∧
    base ≤ (massRow r eid base user).1.access_time ∧
    (massRow r eid base user).1.access_time < base + 180 := by
  simp only [massRow, Rng.next, choicesW]
  refine ⟨by trivial, by trivial, by omega, ?_⟩
  have : r.stream r.pos % 180 < 180 := Nat.mod_lt _ (by norm_num)
  omega

theorem massRow_size (r : Rng) (eid : String) (base : ℤ) (user : String) :
    (5 ≤ (massRow r eid base user).1.file_size_MB ∧
      (massRow r eid base user).1.file_size_MB ≤ 300) ∧
    ((massRow r eid base user).1.file_type = "Database export" →
      50 ≤ (massRow r eid base user).1.file_size_MB ∧
        (massRow r eid base user).1.file_size_MB ≤ 300) ∧
    ((massRow r eid base user).1.file_type = "PDF" →
      5 ≤ (massRow r eid base user).1.file_size_MB ∧
        (massRow r eid base user).1.file_size_MB ≤ 50) ∧
    ((massRow r eid base user).1.file_type = "Excel" →
      10 ≤ (massRow r eid base user).1.file_size_MB ∧
        (massRow r eid base user).1.file_size_MB ≤ 80) := by
  simp only [massRow, Rng.next, choicesW]
  split_ifs with h1 h2
  · have hb := unifSample_mem (by norm_num : (50:ℚ) ≤ 300) (r.stream (r.pos + 2))
    have hm := pyRound3_mem 50000 300000 (by norm_num) (by norm_num) hb.1 hb.2
    refine ⟨⟨by linarith [hm.1], hm.2⟩, fun _ => hm, fun hc => ?_, fun hc => ?_⟩
    · exact absurd (h1.symm.trans hc) (by decide)
    · exact absurd (h1.symm.trans hc) (by decide)
  · have hb := unifSample_mem (by norm_num : (5:ℚ) ≤ 50) (r.stream (r.pos + 2))
    have hm := pyRound3_mem 5000 50000 (by norm_num) (by norm_num) hb.1 hb.2
    refine ⟨⟨hm.1, by linarith [hm.2]⟩, fun hc => absurd hc h1, fun _ => hm, fun hc => ?_⟩
    exact absurd (h2.symm.trans hc) (by decide)
  · have hb := unifSample_mem (by norm_num : (10:ℚ) ≤ 80) (r.stream (r.pos + 2))
    have hm := pyRound3_mem 10000 80000 (by norm_num) (by norm_num) hb.1 hb.2
    exact ⟨⟨by linarith [hm.1], by linarith [hm.2]⟩, fun hc => absurd hc h1,
      fun hc => absurd hc h2, fun _ => hm⟩

theorem genericRow_size (r : Rng) (eid : String) (start : ℤ) (label_user : Option String) :
    10 ≤ (genericRow r eid start label_user).1.file_size_MB ∧
      (genericRow r eid start label_user).1.file_size_MB ≤ 150 := by
  cases label_user with
  | some u =>
    simp only [genericRow, Rng.next]
    have hb := unifSample_mem (by norm_num : (10:ℚ) ≤ 150) (r.stream (r.pos + 3))
    exact pyRound3_mem 10000 150000 (by norm_num) (by norm_num) hb.1 hb.2
  | none =>
    simp only [genericRow, Rng.next, random_user]
    have hb := unifSample_mem (by norm_num : (10:ℚ) ≤ 150) (r.stream (r.pos + 4))
    exact pyRound3_mem 10000 150000 (by norm_num) (by norm_num) hb.1 hb.2

theorem massRows_mem (uuids : Nat → String) (base : ℤ) (user : String) :
    ∀ c i r e, e ∈ (massRows uuids base user i c r).1 →
      ∃ r' eid, e = (massRow r' eid base user).1 := by
  intro c
  induction c with
  | zero => intro i r e h; simp [massRows] at h
  | succ c ih =>
    intro i r e h
    rcases hrow : massRow r (uuids i) base user with ⟨e1, r1⟩
    rcases hrest : massRows uuids base user (i + 1) c r1 with ⟨rest, r2⟩
    simp only [massRows, hrow, hrest] at h
    rcases List.mem_cons.mp h with h1 | h2
    · exact ⟨r, uuids i, by rw [h1, hrow]⟩
    · exact ih (i + 1) r1 e (by rw [hrest]; exact h2)

theorem normalRows_mem (uuids : Nat → String) (start : ℤ) (days : Nat) :
    ∀ c i r e, e ∈ (normalRows uuids start days i c r).1 →
      ∃ r' eid, e = (normalRow r' eid start days).1 := by
  intro c
  induction c with
  | zero => intro i r e h; simp [normalRows] at h
  | succ c ih =>
    intro i r e h
    rcases hrow : normalRow r (uuids i) start days with ⟨e1, r1⟩
    rcases hrest : normalRows uuids start days (i + 1) c r1 with ⟨rest, r2⟩
    simp only [normalRows, hrow, hrest] at h
    rcases List.mem_cons.mp h with h1 | h2
    · exact ⟨r, uuids i, by rw [h1, hrow]⟩
    · exact ih (i + 1) r1 e (by rw [hrest]; exact h2)

theorem genericRows_mem (uuids : Nat → String) (start : ℤ) (label_user : Option String) :
    ∀ c i r e, e ∈ (genericRows uuids start label_user i c r).1 →
      ∃ r' eid, e = (genericRow r' eid start label_user).1 := by
  intro c
  induction c with
  | zero => intro i r e h; simp [genericRows] at h
  | succ c ih =>
    intro i r e h
    rcases hrow : genericRow r (uuids i) start label_user with ⟨e1, r1⟩
    rcases hrest : genericRows uuids start label_user (i + 1) c r1 with ⟨rest, r2⟩
    simp only [genericRows, hrow, hrest] at h
    rcases List.mem_cons.mp h with h1 | h2
    · exact ⟨r, uuids i, by rw [h1, hrow]⟩
    · exact ih (i + 1) r1 e (by rw [hrest]; exact h2)

theorem generate_mass_downloads_spec (r : Rng) (uuids : Nat → String) (n : Nat)
    (start : ℤ) (label_user : Option String) :
    ∃ user, ∀ e ∈ (generate_mass_downloads r uuids n start label_user).1,
      e.action = "download" ∧ e.user_id = user ∧
      floorDay start + 120 ≤ e.access_time ∧ e.access_time < floorDay start + 300 := by
  have hbase : replaceHM start 2 0 = floorDay start + 120 := by unfold replaceHM; ring
  unfold generate_mass_downloads
  cases label_user with
  | some u =>
    refine ⟨u, fun e he => ?_⟩
    obtain ⟨r', eid, rfl⟩ := massRows_mem uuids _ u n 0 r e he
    have hf := massRow_fields r' eid (replaceHM start 2 0) u
    exact ⟨hf.1, hf.2.1, by omega, by omega⟩
  | none =>
    refine ⟨"employee" ++ toString (randint 900 999 (r.stream r.pos)), fun e he => ?_⟩
    obtain ⟨r', eid, rfl⟩ :=
      massRows_mem uuids (replaceHM start 2 0)
        ("employee" ++ toString (randint 900 999 (r.stream r.pos))) n 0
        ⟨r.stream, r.pos + 1⟩ e he
    have hf := massRow_fields r' eid (replaceHM start 2 0)
      ("employee" ++ toString (randint 900 999 (r.stream r.pos)))
    exact ⟨hf.1, hf.2.1, by omega, by omega⟩

/-! ### Determinism of the seeded fields (claim C1) -/

theorem normalRow_eraseId (r : Rng) (e1 e2 : String) (start : ℤ) (days : Nat) :
    eraseId (normalRow r e1 start days).1 = eraseId (normalRow r e2 start days).1 ∧
      (normalRow r e1 start days).2 = (normalRow r e2 start days).2 := ⟨rfl, rfl⟩

theorem massRow_eraseId (r : Rng) (e1 e2 : String) (base : ℤ) (user : String) :
    eraseId (massRow r e1 base user).1 = eraseId (massRow r e2 base user).1 ∧
      (massRow r e1 base user).2 = (massRow r e2 base user).2 := ⟨rfl, rfl⟩

theorem genericRow_eraseId (r : Rng) (e1 e2 : String) (start : ℤ) (label : Option String) :
    eraseId (genericRow r e1 start label).1 = eraseId (genericRow r e2 start label).1 ∧
      (genericRow r e1 start label).2 = (genericRow r e2 start label).2 := by
  cases label with
  | some u => exact ⟨rfl, rfl⟩
  | none => exact ⟨rfl, rfl⟩

theorem normalRows_eraseId (u1 u2 : Nat → String) (start : ℤ) (days : Nat) :
    ∀ c i r,
      (normalRows u1 start days i c r).1.map eraseId
        = (normalRows u2 start days i c r).1.map eraseId ∧
      (normalRows u1 start days i c r).2 = (normalRows u2 start days i c r).2 := by
  intro c
  induction c with
  | zero => intro i r; exact ⟨rfl, rfl⟩
  | succ c ih =>
    intro i r
    rcases h1 : normalRow r (u1 i) start days with ⟨a1, s1⟩
    rcases h2 : normalRow r (u2 i) start days with ⟨a2, s2⟩
    have hera : eraseId a1 = eraseId a2 := by
      have h := (normalRow_eraseId r (u1 i) (u2 i) start days).1
      rw [h1, h2] at h
      exact h
    have hs : s1 = s2 := by
      have h := (normalRow_eraseId r (u1 i) (u2 i) start days).2
      rw [h1, h2] at h
      exact h
    rcases hrest1 : normalRows u1 start days (i + 1) c s1 with ⟨l1, t1⟩
    rcases hrest2 : normalRows u2 start days (i + 1) c s1 with ⟨l2, t2⟩
    have hih := ih (i + 1) s1
    rw [hrest1, hrest2] at hih
    have hl : l1.map eraseId = l2.map eraseId := hih.1
    have ht : t1 = t2 := hih.2
    rw [hs] at hrest2
    simp only [normalRows, h1, h2, hrest1, hrest2, List.map_cons]
    exact ⟨by rw [hera, hl], ht⟩

theorem massRows_eraseId (u1 u2 : Nat → String) (base : ℤ) (user : String) :
    ∀ c i r,
      (massRows u1 base user i c r).1.map eraseId
        = (massRows u2 base user i c r).1.map eraseId ∧
      (massRows u1 base user i c r).2 = (massRows u2 base user i c r).2 := by
  intro c
  induction c with
  | zero => intro i r; exact ⟨rfl, rfl⟩
  | succ c ih =>
    intro i r
    rcases h1 : massRow r (u1 i) base user with ⟨a1, s1⟩
    rcases h2 : massRow r (u2 i) base user with ⟨a2, s2⟩
    have hera : eraseId a1 = eraseId a2 := by
      have h := (massRow_eraseId r (u1 i) (u2 i) base user).1
      rw [h1, h2] at h
      exact h
    have hs : s1 = s2 := by
      have h := (massRow_eraseId r (u1 i) (u2 i) base user).2
      rw [h1, h2] at h
      exact h
    rcases hrest1 : massRows u1 base user (i + 1) c s1 with ⟨l1, t1⟩
    rcases hrest2 : massRows u2 base user (i + 1) c s1 with ⟨l2, t2⟩
    have hih := ih (i + 1) s1
    rw [hrest1, hrest2] at hih
    have hl : l1.map eraseId = l2.map eraseId := hih.1
    have ht : t1 = t2 := hih.2
    rw [hs] at hrest2
    simp only [massRows, h1, h2, hrest1, hrest2, List.map_cons]
    exact ⟨by rw [hera, hl], ht⟩

theorem genericRows_eraseId (u1 u2 : Nat → String) (start : ℤ) (label : Option String) :
    ∀ c i r,
      (genericRows u1 start label i c r).1.map eraseId
        = (genericRows u2 start label i c r).1.map eraseId ∧
      (genericRows u1 start label i c r).2 = (genericRows u2 start label i c r).2 := by
  intro c
  induction c with
  | zero => intro i r; exact ⟨rfl, rfl⟩
  | succ c ih =>
    intro i r
    rcases h1 : genericRow r (u1 i) start label with ⟨a1, s1⟩
    rcases h2 : genericRow r (u2 i) start label with ⟨a2, s2⟩
    have hera : eraseId a1 = eraseId a2 := by
      have h := (genericRow_eraseId r (u1 i) (u2 i) start label).1
      rw [h1, h2] at h
      exact h
    have hs : s1 = s2 := by
      have h := (genericRow_eraseId r (u1 i) (u2 i) start label).2
      rw [h1, h2] at h
      exact h
    rcases hrest1 : genericRows u1 start label (i + 1) c s1 with ⟨l1, t1⟩
    rcases hrest2 : genericRows u2 start label (i + 1) c s1 with ⟨l2, t2⟩
    have hih := ih (i + 1) s1
    rw [hrest1, hrest2] at hih
    have hl : l1.map eraseId = l2.map eraseId := hih.1
    have ht : t1 = t2 := hih.2
    rw [hs] at hrest2
    simp only [genericRows, h1, h2, hrest1, hrest2, List.map_cons]
    exact ⟨by rw [hera, hl], ht⟩

theorem generate_suspicious_events_eraseId (r : Rng) (u1 u2 : Nat → String) (n : Nat)
    (start : ℤ) (label_user : Option String) (pattern : String) :
    (generate_suspicious_events r u1 n start label_user pattern).1.map eraseId
      = (generate_suspicious_events r u2 n start label_user pattern).1.map eraseId ∧
    (generate_suspicious_events r u1 n start label_user pattern).2
      = (generate_suspicious_events r u2 n start label_user pattern).2 := by
  unfold generate_suspicious_events
  by_cases hp : pattern = "mass_downloads"
  · simp only [if_pos hp]
    unfold generate_mass_downloads
    cases label_user with
    | some u =>
      exact ⟨(massRows_eraseId u1 u2 (replaceHM start 2 0) u n 0 r).1,
        (massRows_eraseId u1 u2 (replaceHM start 2 0) u n 0 r).2⟩
    | none =>
      exact ⟨(massRows_eraseId u1 u2 (replaceHM start 2 0)
          ("employee" ++ toString (randint 900 999 (r.stream r.pos))) n 0
          ⟨r.stream, r.pos + 1⟩).1,
        (massRows_eraseId u1 u2 (replaceHM start 2 0)
          ("employee" ++ toString (randint 900 999 (r.stream r.pos))) n 0
          ⟨r.stream, r.pos + 1⟩).2⟩
  · simp only [if_neg hp]
    unfold generate_generic_suspicious
    exact ⟨(genericRows_eraseId u1 u2 start label_user n 0 r).1,
      (genericRows_eraseId u1 u2 start label_user n 0 r).2⟩

/-- C1 (amended): with an identical seeded random stream and identical
parameters (explicit start date included), two runs of the event generators
produce row-for-row identical datasets on every field that flows from the
seeded sources — user_id, file_type, file_size_MB, access_time, action — and
leave the generator in the same state; only event_id, which comes from the
unseeded uuid entropy, may differ. -/
theorem seeded_fields_deterministic (r : Rng) (u1 u2 : Nat → String) (n : Nat)
    (start : ℤ) (days : Nat) (label_user : Option String) (pattern : String) :
    ((generate_normal_events r u1 n start days).1.map eraseId
        = (generate_normal_events r u2 n start days).1.map eraseId) ∧
    ((generate_normal_events r u1 n start days).2
        = (generate_normal_events r u2 n start days).2) ∧
    ((generate_suspicious_events r u1 n start label_user pattern).1.map eraseId
        = (generate_suspicious_events r u2 n start label_user pattern).1.map eraseId) ∧
    ((generate_suspicious_events r u1 n start label_user pattern).2
        = (generate_suspicious_events r u2 n start label_user pattern).2) :=
  ⟨(normalRows_eraseId u1 u2 start days n 0 r).1,
    (normalRows_eraseId u1 u2 start days n 0 r).2,
    (generate_suspicious_events_eraseId r u1 u2 n start label_user pattern).1,
    (generate_suspicious_events_eraseId r u1 u2 n start label_user pattern).2⟩

/-- C1 (counterexample): two runs of generate_normal_events with the same
seeded stream and the same parameters but different operating-system uuid
entropy produce different datasets, because event_id = str(uuid.uuid4()) does
not flow from the seeded sources.  This refutes the claim that identical seed
and parameters make the datasets identical on every field. -/
theorem event_id_not_seeded :
    (generate_normal_events ⟨fun _ => 0, 0⟩ (fun _ => "a") 1 0 10).1
      ≠ (generate_normal_events ⟨fun _ => 0, 0⟩ (fun _ => "b") 1 0 10).1 := by
  decide

/-! ### Claim-level theorems for the event generators -/

/-- C8: every event produced by generate_suspicious_events with pattern
mass_downloads has action "download", the whole batch shares one single
user_id, and every access_time lies in minutes [120, 300) of the start date's
day, i.e. inside the 02:00-05:00 off-hours window of the start date. -/
theorem mass_downloads_shape (r : Rng) (uuids : Nat → String) (n : Nat) (start : ℤ)
    (label_user : Option String) :
    (∀ e ∈ (generate_suspicious_events r uuids n start label_user "mass_downloads").1,
        e.action = "download" ∧
        floorDay start + 120 ≤ e.access_time ∧ e.access_time < floorDay start + 300) ∧
    (∀ e₁ ∈ (generate_suspicious_events r uuids n start label_user "mass_downloads").1,
      ∀ e₂ ∈ (generate_suspicious_events r uuids n start label_user "mass_downloads").1,
        e₁.user_id = e₂.user_id) := by
  unfold generate_suspicious_events
  rw [if_pos rfl]
  obtain ⟨user, hu⟩ := generate_mass_downloads_spec r uuids n start label_user
  constructor
  · intro e he
    exact ⟨(hu e he).1, (hu e he).2.2.1, (hu e he).2.2.2⟩
  · intro e₁ h₁ e₂ h₂
    rw [(hu e₁ h₁).2.1, (hu e₂ h₂).2.1]

/-- C9: every event produced by generate_normal_events has file_size_MB in
the interval [0.1, 120]: the type-specific exponential draw with the
multiplicative download bump is clipped to that range, and rounding to three
decimals keeps it there. -/
theorem normal_events_file_size_range (r : Rng) (uuids : Nat → String) (n : Nat)
    (start : ℤ) (days : Nat) :
    ∀ e ∈ (generate_normal_events r uuids n start days).1,
      1/10 ≤ e.file_size_MB ∧ e.file_size_MB ≤ 120 := by
  intro e he
  simp only [generate_normal_events] at he
  obtain ⟨r', eid, rfl⟩ := normalRows_mem uuids start days n 0 r e he
  exact normalRow_size r' eid start days

/-- C10: suspicious sizes are not clipped to [0.1, 120].  Every
mass_downloads event has file_size_MB in [5, 300] (Database export rows in
[50, 300], PDF in [5, 50], Excel in [10, 80]); every generic suspicious event
(any pattern other than mass_downloads) has file_size_MB in [10, 150]; and
some mass_downloads events exceed 120 MB (a concrete run produces a
175 MB Database export). -/
theorem suspicious_file_size_ranges :
    (∀ (r : Rng) (uuids : Nat → String) (n : Nat) (start : ℤ) (label_user : Option String),
      ∀ e ∈ (generate_suspicious_events r uuids n start label_user "mass_downloads").1,
        (5 ≤ e.file_size_MB ∧ e.file_size_MB ≤ 300) ∧
        (e.file_type = "Database export" → 50 ≤ e.file_size_MB ∧ e.file_size_MB ≤ 300) ∧
        (e.file_type = "PDF" → 5 ≤ e.file_size_MB ∧ e.file_size_MB ≤ 50) ∧
        (e.file_type = "Excel" → 10 ≤ e.file_size_MB ∧ e.file_size_MB ≤ 80)) ∧
    (∀ (r : Rng) (uuids : Nat → String) (n : Nat) (start : ℤ) (label_user : Option String)
        (pattern : String), pattern ≠ "mass_downloads" →
      ∀ e ∈ (generate_suspicious_events r uuids n start label_user pattern).1,
        10 ≤ e.file_size_MB ∧ e.file_size_MB ≤ 150) ∧
    (∃ (r : Rng) (uuids : Nat → String) (n : Nat) (start : ℤ) (label_user : Option String),
      ∃ e ∈ (generate_suspicious_events r uuids n start label_user "mass_downloads").1,
        120 < e.file_size_MB) := by
  refine ⟨?_, ?_, ?_⟩
  · intro r uuids n start label_user e he
    rw [generate_suspicious_events, if_pos rfl] at he
    rcases label_user with _ | u
    · obtain ⟨r', eid, rfl⟩ :=
        massRows_mem uuids (replaceHM start 2 0)
          ("employee" ++ toString (randint 900 999 (r.stream r.pos))) n 0
          ⟨r.stream, r.pos + 1⟩ e he
      exact massRow_size r' eid _ _
    · obtain ⟨r', eid, rfl⟩ := massRows_mem uuids (replaceHM start 2 0) u n 0 r e he
      exact massRow_size r' eid _ _
  · intro r uuids n start label_user pattern hp e he
    rw [generate_suspicious_events, if_neg hp] at he
    obtain ⟨r', eid, rfl⟩ := genericRows_mem uuids start label_user n 0 r e he
    exact genericRow_size r' eid start label_user
  · refine ⟨⟨fun i => if i = 1 then 75 else 500, 0⟩, fun _ => "a", 1, 0, some "u",
      (massRow ⟨fun i => if i = 1 then 75 else 500, 0⟩ "a" (replaceHM 0 2 0) "u").1,
      List.mem_cons_self _ _, ?_⟩
    have hsz : (massRow ⟨fun i => if i = 1 then 75 else 500, 0⟩ "a"
        (replaceHM 0 2 0) "u").1.file_size_MB = pyRound3 (unifSample 50 300 500) := by
      norm_num [massRow, Rng.next, choicesW, pickWeighted, totalWeight]
    have h175 : unifSample 50 300 500 = 175 := by norm_num [unifSample]
    have hb := @pyRound3_mem 175 175 175 175000 175000
      (by norm_num) (by norm_num) (le_refl 175) (le_refl 175)
    rw [hsz, h175]
    linarith [hb.1]

/-- Concrete inputs used by the witnesses below. -/
def rngW : Rng := ⟨fun _ => 0, 0⟩

def uuidsW : Nat → String := fun _ => "a"

def rngW10 : Rng := ⟨fun i => if i = 1 then 75 else 500, 0⟩

def eW8 : Event := (massRow rngW "a" (replaceHM 0 2 0) "bob").1

def eW9 : Event := (normalRow rngW "a" 0 10).1

def eW10 : Event := (massRow rngW10 "a" (replaceHM 0 2 0) "u").1

theorem mass_downloads_shape_witness :
    eW8.action = "download" ∧
      floorDay 0 + 120 ≤ eW8.access_time ∧ eW8.access_time < floorDay 0 + 300 :=
  (mass_downloads_shape rngW uuidsW 1 0 (some "bob")).1 eW8 (List.mem_cons_self _ _)

theorem normal_events_file_size_range_witness :
    1/10 ≤ eW9.file_size_MB ∧ eW9.file_size_MB ≤ 120 :=
  normal_events_file_size_range rngW uuidsW 1 0 10 eW9 (List.mem_cons_self _ _)

theorem suspicious_file_size_ranges_witness :
    (5 ≤ eW10.file_size_MB ∧ eW10.file_size_MB ≤ 300) ∧
    (eW10.file_type = "Database export" → 50 ≤ eW10.file_size_MB ∧ eW10.file_size_MB ≤ 300) ∧
    (eW10.file_type = "PDF" → 5 ≤ eW10.file_size_MB ∧ eW10.file_size_MB ≤ 50) ∧
    (eW10.file_type = "Excel" → 10 ≤ eW10.file_size_MB ∧ eW10.file_size_MB ≤ 80) :=
  suspicious_file_size_ranges.1 rngW10 uuidsW 1 0 (some "u") eW10 (List.mem_cons_self _ _)

/-! ### A model of the pandas / sklearn pipeline (`ml_pipeline.py`)

Data frames are modelled with an ordered column header and row-major cells.
The sklearn components (`ColumnTransformer` + `OneHotEncoder`,
`IsolationForest`) are third-party library state; the claims below depend on
them only through determinism, so they are abstracted as an arbitrary record
of pure functions.  Pandas' sample standard deviation (which needs a square
root) is likewise passed in as an arbitrary function `std`. -/

/-- Python exception values the pipeline can surface.  `validationError` stands
for the dedicated ValidationError class of the specification's error taxonomy;
no such class exists anywhere in the code. -/
inductive PyError where
  | valueError (msg : String)
  | keyError (msg : String)
  | attributeError (msg : String)
  | validationError
deriving DecidableEq, Repr

/-- A cell of a data frame; `nan` models a pandas missing value. -/
inductive Val where
  | str (s : String)
  | num (q : ℚ)
  | time (t : ℤ)
  | bool (b : Bool)
  | nan
deriving DecidableEq, Repr

/-- A pandas DataFrame: ordered column header and row-major cells. -/
structure DF where
  header : List String
  rows : List (List Val)
deriving DecidableEq, Repr

/-- Position of column `n` in a header. -/
def idxOf? : List String → String → Option Nat
  | [], _ => none
  | h :: t, n => if h = n then some 0 else (idxOf? t n).map (· + 1)

/-- `df[n]` as an optional column. -/
def DF.col? (df : DF) (n : String) : Option (List Val) :=
  (idxOf? df.header n).map (fun i => df.rows.map (fun row => row.getD i Val.nan))

/-- `df[n]` with an empty default (used only where the column provably exists). -/
def DF.colD (df : DF) (n : String) : List Val := (df.col? n).getD []

/-- `df[n] = vs`: replace the column in place, or append it on the right. -/
def DF.setCol (df : DF) (n : String) (vs : List Val) : DF :=
  match idxOf? df.header n with
  | some i => ⟨df.header, List.zipWith (fun row v => row.set i v) df.rows vs⟩
  | none => ⟨df.header ++ [n], List.zipWith (fun row v => row ++ [v]) df.rows vs⟩

/-- `df[ns]`: column selection / reordering; KeyError on a missing name. -/
def DF.select (df : DF) (ns : List String) : Except PyError DF :=
  match ns.mapM (fun n => match idxOf? df.header n with
    | some i => Except.ok i
    | none => Except.error (PyError.keyError n)) with
  | Except.error e => Except.error e
  | Except.ok idxs =>
    Except.ok ⟨ns, df.rows.map (fun row => idxs.map (fun i => row.getD i Val.nan))⟩

/-- Well-formed frame: distinct column names and rectangular rows. -/
def DF.WF (df : DF) : Prop :=
  df.header.Nodup ∧ ∀ row ∈ df.rows, row.length = df.header.length

/-- Read a column of timestamps (the `.dt` accessor needs datetime values). -/
def getColTimes (df : DF) (n : String) : Except PyError (List ℤ) :=
  match df.col? n with
  | none => Except.error (PyError.keyError n)
  | some vs => vs.mapM (fun v => match v with
      | Val.time t => Except.ok t
      | _ => Except.error (PyError.attributeError n))

/-- Read a column of strings. -/
def getColStrs (df : DF) (n : String) : Except PyError (List String) :=
  match df.col? n with
  | none => Except.error (PyError.keyError n)
  | some vs => vs.mapM (fun v => match v with
      | Val.str s => Except.ok s
      | _ => Except.error (PyError.attributeError n))

/-- Read a numeric column. -/
def getColNums (df : DF) (n : String) : Except PyError (List ℚ) :=
  match df.col? n with
  | none => Except.error (PyError.keyError n)
  | some vs => vs.mapM (fun v => match v with
      | Val.num q => Except.ok q
      | _ => Except.error (PyError.attributeError n))

/-- `file_risk_scores` lookup table of `engineer_features`. -/
def file_risk_scores : List (String × ℚ) :=
  [("Database export", 10), ("PDF", 7), ("Excel", 6), ("CSV", 5),
   ("Doc", 4), ("PPT", 3), ("Image", 2)]

/-- `FeatureEngineer.engineer_features`.  The per-user aggregates are the
batch-relative group-by statistics merged back onto each row (`how="left"` on
the row's own user, so every key is present); `.round(3)` applies to the float
aggregates (mean, std), while the integer counts are unchanged, matching the
pandas dtypes.  Unknown file types map to NaN as `Series.map` does. -/
def engineer_features (std : List ℚ → ℚ) (df : DF) : Except PyError DF := do
  let times ← getColTimes df "access_time"
  let hours := times.map hourOf
  let dows := times.map dowOf
  let d1 := df.setCol "hour" (hours.map (fun (h : ℤ) => Val.num (h : ℚ)))
  let d2 := d1.setCol "dayofweek" (dows.map (fun (d : ℤ) => Val.num (d : ℚ)))
  let d3 := d2.setCol "is_weekend"
    (dows.map (fun d => Val.num (if d = 5 ∨ d = 6 then 1 else 0)))
  let d4 := d3.setCol "is_after_hours"
    (hours.map (fun h => Val.num (if h < 8 ∨ 19 < h then 1 else 0)))
  let users ← getColStrs d4 "user_id"
  let sizes ← getColNums d4 "file_size_MB"
  let acts ← getColStrs d4 "action"
  let sizesOf := fun u => ((users.zip sizes).filter (fun p => p.1 = u)).map Prod.snd
  let dcountOf := fun u =>
    (((users.zip acts).filter (fun p => p.1 = u)).filter (fun p => p.2 = "download")).length
  let d5 := d4.setCol "avg_file_size"
    (users.map (fun u => Val.num (pyRound3 ((sizesOf u).sum / ((sizesOf u).length : ℚ)))))
  let d6 := d5.setCol "std_file_size"
    (users.map (fun u => Val.num (pyRound3 (std (sizesOf u)))))
  let d7 := d6.setCol "total_access"
    (users.map (fun u => Val.num ((sizesOf u).length : ℚ)))
  let d8 := d7.setCol "download_count"
    (users.map (fun u => Val.num (dcountOf u : ℚ)))
  let d9 := d8.setCol "download_ratio"
    (users.map (fun u => Val.num ((dcountOf u : ℚ) / ((sizesOf u).length : ℚ))))
  let fts ← getColStrs d9 "file_type"
  let d10 := d9.setCol "file_type_risk" (fts.map (fun s =>
    match file_risk_scores.lookup s with
    | some q => Val.num q
    | none => Val.nan))
  let d11 := d10.setCol "is_large_file"
    (sizes.map (fun q => Val.num (if 50 < q then 1 else 0)))
  let d12 := d11.setCol "size_risk_score" (sizes.map (fun q =>
    Val.num (if 100 < q then 10 else if 50 < q then 7 else if 10 < q then 4 else 1)))
  return d12

/-- The fitted sklearn components, abstracted: `P` is the state of a fitted
`ColumnTransformer` (the frozen categorical schema and one-hot encoder), `F`
a fitted `IsolationForest` (trees plus the calibrated decision threshold).
All are deterministic pure functions, which is all the claims below use. -/
structure SKLib (P F : Type) where
  fitPrep : DF → P
  transform : P → DF → List (List ℚ)
  fitForest : List (List ℚ) → F
  scoreSamples : F → List (List ℚ) → List ℚ
  predictModel : F → List (List ℚ) → List ℤ

/-- The mutable state of `AnomalyDetector`. -/
structure AnomalyDetector (P F : Type) where
  contamination : ℚ
  n_estimators : Nat
  pipeline : Option (P × F)
  feature_columns : Option (List String)

/-- `np.min` of the raw scores (the generators only apply it to nonempty
batches; the empty default is irrelevant there). -/
def listMin : List ℚ → ℚ
  | [] => 0
  | x :: xs => xs.foldl min x

/-- `np.max` of the raw scores. -/
def listMax : List ℚ → ℚ
  | [] => 0
  | x :: xs => xs.foldl max x

/-- Risk normalization of `fit_and_score` / `predict_new_data`: invert sign,
min-max scale against the current batch with the `1e-9` denominator guard. -/
def normalizeRisk (scores : List ℚ) : List ℚ :=
  let raw := scores.map (fun s => -s)
  let mn := listMin raw
  let mx := listMax raw
  raw.map (fun x => (x - mn) / (mx - mn + 1/1000000000) * 100)

/-- `AnomalyDetector.fit_and_score`.  The explicit empty-batch check models
sklearn's `check_array` validation, which raises
`ValueError("Found array with 0 sample(s) ...")` when `pipeline.fit` is given
an empty feature table. -/
def fit_and_score {P F : Type} (lib : SKLib P F) (std : List ℚ → ℚ)
    (ad : AnomalyDetector P F) (df : DF) :
    Except PyError (AnomalyDetector P F × DF) := do
  let dfFeat ← engineer_features std df
  if dfFeat.rows.length = 0 then
    Except.error (PyError.valueError "Found array with 0 sample(s)")
  else
    let prep := lib.fitPrep dfFeat
    let forest := lib.fitForest (lib.transform prep dfFeat)
    let ad' : AnomalyDetector P F :=
      { ad with pipeline := some (prep, forest), feature_columns := some dfFeat.header }
    let scores := lib.scoreSamples forest (lib.transform prep dfFeat)
    let risk := normalizeRisk scores
    let preds := lib.predictModel forest (lib.transform prep dfFeat)
    let scored :=
      (((((df.setCol "risk_score" (risk.map (fun q => Val.num (pyRound2 q)))).setCol
          "anomaly_flag" (preds.map (fun p => Val.bool (p == -1)))).setCol
          "hour" (dfFeat.colD "hour")).setCol
          "dayofweek" (dfFeat.colD "dayofweek")).setCol
          "is_weekend" (dfFeat.colD "is_weekend")).setCol
          "is_after_hours" (dfFeat.colD "is_after_hours")
    return (ad', scored)

/-- Lines 184-190 of `ml_pipeline.py`: fill feature columns that are missing
from the new batch with the neutral default 0 and collect the non-fatal
`logger.warning` diagnostics. -/
def reconcileFeatures (feature_columns : List String) (dfFeat : DF) : DF × List String :=
  let missing := feature_columns.filter (fun c => c ∉ dfFeat.header)
  (missing.foldl (fun d c => d.setCol c (List.replicate d.rows.length (Val.num 0))) dfFeat,
   if missing.isEmpty then [] else ["Missing features: " ++ toString missing])

/-- `AnomalyDetector.predict_new_data`: requires a fitted pipeline, reuses the
stored feature-column order, and never refits. -/
def predict_new_data {P F : Type} (lib : SKLib P F) (std : List ℚ → ℚ)
    (ad : AnomalyDetector P F) (df : DF) : Except PyError (DF × List String) := do
  match ad.pipeline, ad.feature_columns with
  | some (prep, forest), some fcols =>
    let dfFeat0 ← engineer_features std df
    let (dfFeat1, warns) := reconcileFeatures fcols dfFeat0
    let dfFeat ← dfFeat1.select fcols
    let scores := lib.scoreSamples forest (lib.transform prep dfFeat)
    let risk := normalizeRisk scores
    let preds := lib.predictModel forest (lib.transform prep dfFeat)
    let scored := (df.setCol "risk_score" (risk.map (fun q => Val.num (pyRound2 q)))).setCol
        "anomaly_flag" (preds.map (fun p => Val.bool (p == -1)))
    return (scored, warns)
  | _, _ => Except.error (PyError.valueError "Model must be fitted before making predictions")

/-- What `joblib.dump` writes in `save_model`. -/
structure ModelFile (P F : Type) where
  pipeline : P × F
  feature_columns : Option (List String)
  contamination : ℚ
  n_estimators : Nat

/-- The persisted artifact: either a readable bundle or an undeserializable
blob (on which `joblib.load` raises). -/
inductive FileContent (P F : Type) where
  | valid (m : ModelFile P F)
  | corrupt

/-- `AnomalyDetector.save_model`: refuses when unfitted, else writes the
bundle (overwrite-on-save). -/
def save_model {P F : Type} (ad : AnomalyDetector P F) : Except PyError (FileContent P F) :=
  match ad.pipeline with
  | none => Except.error (PyError.valueError "No model to save")
  | some pf =>
    Except.ok (FileContent.valid ⟨pf, ad.feature_columns, ad.contamination, ad.n_estimators⟩)

/-- The body of the `try` block of `AnomalyDetector.load_model`: missing file
falls through to `return False`; a corrupt file makes `joblib.load` raise. -/
def load_model_body {P F : Type} (ad : AnomalyDetector P F)
    (file : Option (FileContent P F)) : Except PyError (AnomalyDetector P F × Bool) :=
  match file with
  | some (FileContent.valid m) =>
    Except.ok ({ ad with
      pipeline := some m.pipeline
      feature_columns := m.feature_columns
      contamination := m.contamination
      n_estimators := m.n_estimators }, true)
  | some FileContent.corrupt => Except.error (PyError.valueError "invalid load key")
  | none => Except.ok (ad, false)

/-- `AnomalyDetector.load_model`: the `except` clause logs the error and
returns `False`, so no exception ever escapes. -/
def load_model {P F : Type} (ad : AnomalyDetector P F)
    (file : Option (FileContent P F)) : AnomalyDetector P F × Bool :=
  match load_model_body ad file with
  | Except.ok res => res
  | Except.error _ => (ad, false)

/-! ### Facts about column lookup and frame updates -/

theorem idxOf?_eq_none_iff (l : List String) (n : String) :
    idxOf? l n = none ↔ n ∉ l := by
  induction l with
  | nil => simp [idxOf?]
  | cons h t ih =>
    by_cases hh : h = n
    · simp [idxOf?, hh]
    · simp only [idxOf?, if_neg hh, Option.map_eq_none', ih, List.mem_cons]
      constructor
      · intro hn hc
        rcases hc with hc | hc
        · exact hh hc.symm
        · exact hn hc
      · intro hn
        exact fun hc => hn (Or.inr hc)

theorem idxOf?_lt_length (l : List String) (n : String) :
    ∀ i, idxOf? l n = some i → i < l.length := by
  induction l with
  | nil => intro i h; simp [idxOf?] at h
  | cons h t ih =>
    intro i hi
    by_cases hh : h = n
    · simp [idxOf?, hh] at hi
      simp [← hi]
    · simp only [idxOf?, if_neg hh, Option.map_eq_some'] at hi
      obtain ⟨j, hj, rfl⟩ := hi
      have := ih j hj
      simp only [List.length_cons]
      omega

theorem idxOf?_getD (l : List String) (n : String) :
    ∀ i, idxOf? l n = some i → l.getD i "" = n := by
  induction l with
  | nil => intro i h; simp [idxOf?] at h
  | cons h t ih =>
    intro i hi
    by_cases hh : h = n
    · simp [idxOf?, hh] at hi
      simp [← hi, hh]
    · simp only [idxOf?, if_neg hh, Option.map_eq_some'] at hi
      obtain ⟨j, hj, rfl⟩ := hi
      simpa using ih j hj

theorem idxOf?_mem {l : List String} {n : String} (h : n ∈ l) :
    ∃ i, idxOf? l n = some i := by
  rcases ho : idxOf? l n with _ | i
  · exact absurd ((idxOf?_eq_none_iff l n).mp ho) (by simp [h])
  · exact ⟨i, rfl⟩

theorem idxOf?_append_left {l : List String} {n : String} {i : Nat}
    (h : idxOf? l n = some i) (l₂ : List String) : idxOf? (l ++ l₂) n = some i := by
  induction l generalizing i with
  | nil => simp [idxOf?] at h
  | cons a t ih =>
    by_cases ha : a = n
    · simp [idxOf?, ha] at h ⊢
      exact h
    · simp only [idxOf?, if_neg ha, Option.map_eq_some'] at h
      obtain ⟨j, hj, rfl⟩ := h
      simp only [List.cons_append, idxOf?, if_neg ha, Option.map_eq_some']
      exact ⟨j, ih hj, rfl⟩

theorem idxOf?_append_of_not_mem {pre : List String} {n : String} (h : n ∉ pre)
    (l : List String) : idxOf? (pre ++ l) n = (idxOf? l n).map (· + pre.length) := by
  induction pre with
  | nil => simp
  | cons a t ih =>
    have ha : a ≠ n := fun hc => h (by simp [hc])
    have ht : n ∉ t := fun hc => h (by simp [hc])
    simp only [List.cons_append, idxOf?, if_neg ha, List.length_cons, List.append_eq]
    rw [ih ht]
    rcases h' : idxOf? l n with _ | j
    · simp [h']
    · simp only [h', Option.map_some', Option.some.injEq]
      omega

theorem mem_of_idxOf?_eq_some {l : List String} {n : String} {i : Nat}
    (h : idxOf? l n = some i) : n ∈ l := by
  by_contra hn
  rw [(idxOf?_eq_none_iff l n).mpr hn] at h
  exact Option.noConfusion h

theorem getD_set_self {l : List Val} {i : Nat} (v : Val) (h : i < l.length) :
    (l.set i v).getD i Val.nan = v := by
  simp [List.getD, List.getElem?_set]
  simp [h]

theorem getD_set_ne {l : List Val} {i j : Nat} (v : Val) (hne : i ≠ j) :
    (l.set i v).getD j Val.nan = l.getD j Val.nan := by
  simp [List.getD_eq_getElem?_getD, List.getElem?_set_ne hne]

theorem getD_append_self {l l2 : List Val} :
    (l ++ l2).getD l.length Val.nan = l2.getD 0 Val.nan := by
  simp [List.getD_eq_getElem?_getD, List.getElem?_append_right]

theorem getD_append_lt {l l2 : List Val} {j : Nat} (h : j < l.length) :
    (l ++ l2).getD j Val.nan = l.getD j Val.nan := by
  simp [List.getD_eq_getElem?_getD, List.getElem?_append, h]

theorem mem_zipWith {α β γ : Type} {f : α → β → γ} :
    ∀ {l : List α} {m : List β} {x : γ}, x ∈ List.zipWith f l m →
      ∃ a b, a ∈ l ∧ b ∈ m ∧ x = f a b := by
  intro l
  induction l with
  | nil => intro m x h; simp at h
  | cons a t ih =>
    intro m x h
    cases m with
    | nil => simp at h
    | cons b s =>
      simp only [List.zipWith_cons_cons, List.mem_cons] at h
      rcases h with rfl | h
      · exact ⟨a, b, by simp, by simp, rfl⟩
      · obtain ⟨a', b', ha, hb, rfl⟩ := ih h
        exact ⟨a', b', by simp [ha], by simp [hb], rfl⟩

theorem map_zipWith_right {α β γ : Type} (f : α → β → γ) (g : γ → β) :
    ∀ (l : List α) (m : List β), (∀ a ∈ l, ∀ b ∈ m, g (f a b) = b) →
      m.length ≤ l.length → (List.zipWith f l m).map g = m := by
  intro l
  induction l with
  | nil =>
    intro m h hlen
    cases m with
    | nil => simp
    | cons b s => simp at hlen
  | cons a t ih =>
    intro m h hlen
    cases m with
    | nil => simp
    | cons b s =>
      simp only [List.zipWith_cons_cons, List.map_cons]
      rw [h a (by simp) b (by simp),
        ih s (fun a' ha' b' hb' => h a' (by simp [ha']) b' (by simp [hb']))
          (by simpa using hlen)]

theorem setCol_WF {df : DF} (h : df.WF) (n : String) (vs : List Val) :
    (df.setCol n vs).WF := by
  obtain ⟨hnd, hlen⟩ := h
  unfold DF.setCol
  rcases hi : idxOf? df.header n with _ | i
  · refine ⟨?_, ?_⟩
    · simp only
      rw [List.nodup_append]
      refine ⟨hnd, List.nodup_singleton n, ?_⟩
      intro a ha hb
      simp only [List.mem_singleton] at hb
      subst hb
      exact (idxOf?_eq_none_iff _ _).mp hi ha
    · intro row hrow
      simp only at hrow ⊢
      obtain ⟨r0, v0, hr0, hv0, rfl⟩ := mem_zipWith hrow
      simp [hlen r0 hr0]
  · refine ⟨hnd, ?_⟩
    intro row hrow
    simp only at hrow ⊢
    obtain ⟨r0, v0, hr0, hv0, rfl⟩ := mem_zipWith hrow
    simp [hlen r0 hr0]

theorem rows_length_setCol (df : DF) (n : String) (vs : List Val) :
    (df.setCol n vs).rows.length = min df.rows.length vs.length := by
  unfold DF.setCol
  rcases idxOf? df.header n with _ | i <;> simp [List.length_zipWith]

theorem mem_header_setCol {df : DF} {n m : String} {vs : List Val} :
    m ∈ (df.setCol n vs).header ↔ m ∈ df.header ∨ m = n := by
  unfold DF.setCol
  rcases hi : idxOf? df.header n with _ | i
  · simp
  · simp only
    constructor
    · exact fun h => Or.inl h
    · intro h
      rcases h with h | rfl
      · exact h
      · exact mem_of_idxOf?_eq_some hi

theorem colD_setCol_self {df : DF} (h : df.WF) {n : String} (vs : List Val)
    (hlen : vs.length = df.rows.length) : (df.setCol n vs).colD n = vs := by
  obtain ⟨hnd, hrows⟩ := h
  unfold DF.setCol
  rcases hi : idxOf? df.header n with _ | i
  · have hidx : idxOf? (df.header ++ [n]) n
        = (idxOf? [n] n).map (· + df.header.length) :=
      idxOf?_append_of_not_mem ((idxOf?_eq_none_iff _ _).mp hi) [n]
    have hres : idxOf? (df.header ++ [n]) n = some df.header.length := by
      rw [hidx]
      simp [idxOf?]
    unfold DF.colD DF.col?
    simp only [hres, Option.map_some', Option.getD_some]
    refine map_zipWith_right _ _ _ _ ?_ (le_of_eq (by rw [hlen]))
    intro row hrow v hv
    have : row.length = df.header.length := hrows row hrow
    rw [← this, getD_append_self]
    simp
  · unfold DF.colD DF.col?
    simp only [hi, Option.map_some', Option.getD_some]
    refine map_zipWith_right _ _ _ _ ?_ (le_of_eq (by rw [hlen]))
    intro row hrow v hv
    exact getD_set_self v (by rw [hrows row hrow]; exact idxOf?_lt_length _ _ i hi)

theorem map_zipWith_eq_map {α β γ δ : Type} (f : α → β → γ) (g : γ → δ) (g' : α → δ) :
    ∀ (l : List α) (m : List β), (∀ a ∈ l, ∀ b ∈ m, g (f a b) = g' a) →
      l.length ≤ m.length → (List.zipWith f l m).map g = l.map g' := by
  intro l
  induction l with
  | nil => intro m h hlen; simp
  | cons a t ih =>
    intro m h hlen
    cases m with
    | nil => simp at hlen
    | cons b s =>
      simp only [List.zipWith_cons_cons, List.map_cons]
      rw [h a (by simp) b (by simp),
        ih s (fun a' ha' b' hb' => h a' (by simp [ha']) b' (by simp [hb']))
          (by simpa using hlen)]

theorem col?_setCol_ne {df : DF} (h : df.WF) {n m : String} (vs : List Val)
    (hne : m ≠ n) (hlen : df.rows.length ≤ vs.length) :
    (df.setCol n vs).col? m = df.col? m := by
  obtain ⟨hnd, hrows⟩ := h
  unfold DF.setCol
  rcases hi : idxOf? df.header n with _ | i
  · unfold DF.col?
    simp only
    rcases hm : idxOf? df.header m with _ | j
    · have hap : idxOf? (df.header ++ [n]) m = (idxOf? [n] m).map (· + df.header.length) :=
        idxOf?_append_of_not_mem ((idxOf?_eq_none_iff _ _).mp hm) [n]
      rw [hap]
      have : idxOf? [n] m = none := by
        simp only [idxOf?, if_neg (fun hc : n = m => hne hc.symm)]
        simp [idxOf?]
      rw [this]
      simp
    · rw [idxOf?_append_left hm [n]]
      simp only [Option.map_some']
      congr 1
      refine map_zipWith_eq_map _ _ _ _ _ ?_ hlen
      intro row hrow v hv
      exact getD_append_lt (by
        rw [hrows row hrow]
        exact idxOf?_lt_length _ _ j hm)
  · unfold DF.col?
    simp only
    rcases hm : idxOf? df.header m with _ | j
    · simp
    · simp only [Option.map_some']
      congr 1
      refine map_zipWith_eq_map _ _ _ _ _ ?_ hlen
      intro row hrow v hv
      refine getD_set_ne v ?_
      intro hc
      subst hc
      have h1 := idxOf?_getD _ _ _ hi
      have h2 := idxOf?_getD _ _ _ hm
      rw [h1] at h2
      exact hne h2.symm

theorem colD_setCol_ne {df : DF} (h : df.WF) {n m : String} (vs : List Val)
    (hne : m ≠ n) (hlen : df.rows.length ≤ vs.length) :
    (df.setCol n vs).colD m = df.colD m := by
  unfold DF.colD
  rw [col?_setCol_ne h vs hne hlen]

theorem mem_colD_setCol_self {df : DF} (h : df.WF) {n : String} {vs : List Val} {v : Val}
    (hv : v ∈ (df.setCol n vs).colD n) : v ∈ vs := by
  obtain ⟨hnd, hrows⟩ := h
  unfold DF.setCol at hv
  rcases hi : idxOf? df.header n with _ | i <;> simp only [hi] at hv
  · unfold DF.colD DF.col? at hv
    have hres : idxOf? (df.header ++ [n]) n = some df.header.length := by
      rw [idxOf?_append_of_not_mem ((idxOf?_eq_none_iff _ _).mp hi) [n]]
      simp [idxOf?]
    simp only [hres, Option.map_some', Option.getD_some, List.mem_map] at hv
    obtain ⟨row', hrow', rfl⟩ := hv
    obtain ⟨r0, v0, hr0, hv0, rfl⟩ := mem_zipWith hrow'
    rw [show df.header.length = r0.length from (hrows r0 hr0).symm, getD_append_self]
    simpa using hv0
  · unfold DF.colD DF.col? at hv
    simp only [hi, Option.map_some', Option.getD_some, List.mem_map] at hv
    obtain ⟨row', hrow', rfl⟩ := hv
    obtain ⟨r0, v0, hr0, hv0, rfl⟩ := mem_zipWith hrow'
    rw [getD_set_self v0 (by rw [hrows r0 hr0]; exact idxOf?_lt_length _ _ i hi)]
    exact hv0

theorem mem_colD_setCol_ne {df : DF} (h : df.WF) {n m : String} {vs : List Val} {v : Val}
    (hne : m ≠ n) (hv : v ∈ (df.setCol n vs).colD m) : v ∈ df.colD m := by
  obtain ⟨hnd, hrows⟩ := h
  unfold DF.setCol at hv
  rcases hi : idxOf? df.header n with _ | i <;> simp only [hi] at hv
  · unfold DF.colD DF.col? at hv ⊢
    rcases hm : idxOf? df.header m with _ | j
    · have hap : idxOf? (df.header ++ [n]) m = none := by
        rw [idxOf?_append_of_not_mem ((idxOf?_eq_none_iff _ _).mp hm) [n]]
        have : idxOf? [n] m = none := by
          simp only [idxOf?, if_neg (fun hc : n = m => hne hc.symm)]
          simp [idxOf?]
        rw [this]
        rfl
      simp [hap] at hv
    · have hap := idxOf?_append_left hm [n]
      simp only [hap, hm, Option.map_some', Option.getD_some, List.mem_map] at hv ⊢
      obtain ⟨row', hrow', rfl⟩ := hv
      obtain ⟨r0, v0, hr0, hv0, rfl⟩ := mem_zipWith hrow'
      refine ⟨r0, hr0, ?_⟩
      rw [getD_append_lt (by rw [hrows r0 hr0]; exact idxOf?_lt_length _ _ j hm)]
  · unfold DF.colD DF.col? at hv ⊢
    rcases hm : idxOf? df.header m with _ | j
    · simp [hm] at hv
    · simp only [hm, Option.map_some', Option.getD_some, List.mem_map] at hv ⊢
      obtain ⟨row', hrow', rfl⟩ := hv
      obtain ⟨r0, v0, hr0, hv0, rfl⟩ := mem_zipWith hrow'
      refine ⟨r0, hr0, Eq.symm ?_⟩
      refine getD_set_ne v0 ?_
      intro hc
      subst hc
      have h1 := idxOf?_getD _ _ _ hi
      have h2 := idxOf?_getD _ _ _ hm
      rw [h1] at h2
      exact hne h2.symm

theorem mapM_idx_ok {l : List String} {ns : List String} (h : ∀ n ∈ ns, n ∈ l) :
    ∃ idxs, ns.mapM (fun n => match idxOf? l n with
      | some i => Except.ok i
      | none => Except.error (PyError.keyError n)) = Except.ok idxs := by
  induction ns with
  | nil => exact ⟨[], rfl⟩
  | cons a t ih =>
    obtain ⟨i, hi⟩ := idxOf?_mem (h a (by simp))
    obtain ⟨idxs, hidxs⟩ := ih (fun n hn => h n (by simp [hn]))
    refine ⟨i :: idxs, ?_⟩
    rw [List.mapM_cons, hi, hidxs]
    rfl

theorem select_ok_of_mem {df : DF} {ns : List String} (h : ∀ n ∈ ns, n ∈ df.header) :
    ∃ d, df.select ns = Except.ok d := by
  unfold DF.select
  obtain ⟨idxs, hidxs⟩ := mapM_idx_ok (l := df.header) h
  rw [hidxs]
  exact ⟨_, rfl⟩

theorem map_range_getD : ∀ (row : List Val),
    (List.range row.length).map (fun i => row.getD i Val.nan) = row := by
  intro row
  induction row with
  | nil => simp
  | cons v rest ih =>
    rw [List.length_cons, List.range_succ_eq_map, List.map_cons, List.map_map]
    have hcomp : ((fun i => (v :: rest).getD i Val.nan) ∘ (· + 1))
        = (fun i => rest.getD i Val.nan) := by
      funext i
      simp
    rw [hcomp, ih]
    simp

theorem selfIdx_aux : ∀ (l pre : List String), (pre ++ l).Nodup →
    l.mapM (fun n => match idxOf? (pre ++ l) n with
      | some i => Except.ok i
      | none => Except.error (PyError.keyError n))
      = Except.ok (List.range' pre.length l.length) := by
  intro l
  induction l with
  | nil => intro pre h; rfl
  | cons a t ih =>
    intro pre h
    have hna : a ∉ pre := by
      rw [List.nodup_append] at h
      intro hc
      exact h.2.2 hc (by simp)
    have hia : idxOf? (pre ++ a :: t) a = some pre.length := by
      rw [idxOf?_append_of_not_mem hna]
      simp [idxOf?]
    have hrec := ih (pre ++ [a]) (by rw [List.append_assoc]; simpa using h)
    rw [List.append_assoc] at hrec
    simp only [List.singleton_append, List.length_append, List.length_singleton] at hrec
    rw [List.mapM_cons, hia, hrec]
    rfl

theorem select_self {df : DF} (h : df.WF) : df.select df.header = Except.ok df := by
  obtain ⟨hnd, hrows⟩ := h
  unfold DF.select
  have haux := selfIdx_aux df.header [] (by simpa using hnd)
  simp only [List.nil_append, List.length_nil] at haux
  rw [haux]
  rcases df with ⟨header, rows⟩
  simp only [Except.ok.injEq, DF.mk.injEq, true_and]
  simp only at hrows
  calc rows.map (fun row => (List.range' 0 header.length).map (fun i => row.getD i Val.nan))
      = rows.map (fun row => row) := by
        refine List.map_congr_left ?_
        intro row hrow
        rw [← List.range_eq_range', ← hrows row hrow]
        exact map_range_getD row
    _ = rows := List.map_id _

theorem mapM_ok_length {α β : Type} {f : α → Except PyError β} :
    ∀ {l : List α} {l' : List β}, l.mapM f = Except.ok l' → l'.length = l.length := by
  intro l
  induction l with
  | nil =>
    intro l' h
    simp only [List.mapM_nil, pure, Except.pure] at h
    cases h
    rfl
  | cons a t ih =>
    intro l' h
    rw [List.mapM_cons] at h
    simp only [bind, Except.bind, pure, Except.pure] at h
    rcases ha : f a with e | b <;> rw [ha] at h
    · cases h
    · rcases ht : t.mapM f with e | bs <;> rw [ht] at h
      · cases h
      · cases h
        simp [ih ht]

theorem col?_length {df : DF} {n : String} {vs : List Val}
    (h : df.col? n = some vs) : vs.length = df.rows.length := by
  unfold DF.col? at h
  rcases hi : idxOf? df.header n with _ | i <;> rw [hi] at h
  · cases h
  · simp only [Option.map_some', Option.some.injEq] at h
    rw [← h]
    simp

theorem getColTimes_length {df : DF} {n : String} {ts : List ℤ}
    (h : getColTimes df n = Except.ok ts) : ts.length = df.rows.length := by
  unfold getColTimes at h
  rcases hc : df.col? n with _ | vs <;> rw [hc] at h
  · cases h
  · rw [mapM_ok_length h]
    exact col?_length hc

theorem getColStrs_length {df : DF} {n : String} {ss : List String}
    (h : getColStrs df n = Except.ok ss) : ss.length = df.rows.length := by
  unfold getColStrs at h
  rcases hc : df.col? n with _ | vs <;> rw [hc] at h
  · cases h
  · rw [mapM_ok_length h]
    exact col?_length hc

theorem getColNums_length {df : DF} {n : String} {qs : List ℚ}
    (h : getColNums df n = Except.ok qs) : qs.length = df.rows.length := by
  unfold getColNums at h
  rcases hc : df.col? n with _ | vs <;> rw [hc] at h
  · cases h
  · rw [mapM_ok_length h]
    exact col?_length hc

theorem setCol_keep {df : DF} {L : Nat} (h : df.WF ∧ df.rows.length = L) {n : String}
    {vs : List Val} (hv : vs.length = L) :
    (df.setCol n vs).WF ∧ (df.setCol n vs).rows.length = L := by
  refine ⟨setCol_WF h.1 n vs, ?_⟩
  rw [rows_length_setCol, h.2, hv]
  simp

theorem bind_ok_inv {α β : Type} {x : Except PyError α} {f : α → Except PyError β} {b : β}
    (h : (x >>= f) = Except.ok b) : ∃ a, x = Except.ok a ∧ f a = Except.ok b := by
  rcases hx : x with e | a <;> rw [hx] at h
  · simp only [bind, Except.bind] at h
    cases h
  · exact ⟨a, rfl, by simpa [bind, Except.bind] using h⟩

theorem engineer_features_inv {std : List ℚ → ℚ} {df d' : DF} (hWF : df.WF)
    (hok : engineer_features std df = Except.ok d') :
    (d'.WF ∧ d'.rows.length = df.rows.length) ∧
      "hour" ∈ d'.header ∧ "dayofweek" ∈ d'.header ∧
      "is_weekend" ∈ d'.header ∧ "is_after_hours" ∈ d'.header := by
  unfold engineer_features at hok
  obtain ⟨times, ht, hok⟩ := bind_ok_inv hok
  obtain ⟨users, hu, hok⟩ := bind_ok_inv hok
  obtain ⟨sizes, hs, hok⟩ := bind_ok_inv hok
  obtain ⟨acts, ha, hok⟩ := bind_ok_inv hok
  obtain ⟨fts, hf, hok⟩ := bind_ok_inv hok
  simp only [pure, Except.pure, Except.ok.injEq] at hok
  subst hok
  have htl := getColTimes_length ht
  have hul := getColStrs_length hu
  have hsl := getColNums_length hs
  have hfl := getColStrs_length hf
  simp only [rows_length_setCol, List.length_map, htl, Nat.min_self] at hul hsl
  simp only [rows_length_setCol, List.length_map, htl, hul, hsl, Nat.min_self] at hfl
  refine ⟨setCol_keep (setCol_keep (setCol_keep (setCol_keep (setCol_keep (setCol_keep
    (setCol_keep (setCol_keep (setCol_keep (setCol_keep (setCol_keep (setCol_keep
      ⟨hWF, rfl⟩ ?_) ?_) ?_) ?_) ?_) ?_) ?_) ?_) ?_) ?_) ?_) ?_, ?_, ?_, ?_, ?_⟩ <;>
    simp [htl, hul, hsl, hfl, mem_header_setCol]

theorem foldl_min_le_init : ∀ (l : List ℚ) (a : ℚ), l.foldl min a ≤ a := by
  intro l
  induction l with
  | nil => intro a; simp
  | cons x t ih =>
    intro a
    simp only [List.foldl_cons]
    exact le_trans (ih (min a x)) (min_le_left a x)

theorem foldl_min_le {l : List ℚ} {x : ℚ} (h : x ∈ l) : ∀ a, l.foldl min a ≤ x := by
  induction l with
  | nil => simp at h
  | cons y t ih =>
    intro a
    rcases List.mem_cons.mp h with rfl | hx
    · simp only [List.foldl_cons]
      exact le_trans (foldl_min_le_init t (min a x)) (min_le_right a x)
    · simp only [List.foldl_cons]
      exact ih hx (min a y)

theorem listMin_le {l : List ℚ} {x : ℚ} (h : x ∈ l) : listMin l ≤ x := by
  cases l with
  | nil => simp at h
  | cons y t =>
    unfold listMin
    rcases List.mem_cons.mp h with rfl | hx
    · exact foldl_min_le_init t x
    · exact foldl_min_le hx y

theorem init_le_foldl_max : ∀ (l : List ℚ) (a : ℚ), a ≤ l.foldl max a := by
  intro l
  induction l with
  | nil => intro a; simp
  | cons x t ih =>
    intro a
    simp only [List.foldl_cons]
    exact le_trans (le_max_left a x) (ih (max a x))

theorem le_foldl_max {l : List ℚ} {x : ℚ} (h : x ∈ l) : ∀ a, x ≤ l.foldl max a := by
  induction l with
  | nil => simp at h
  | cons y t ih =>
    intro a
    rcases List.mem_cons.mp h with rfl | hx
    · simp only [List.foldl_cons]
      exact le_trans (le_max_right a x) (init_le_foldl_max t (max a x))
    · simp only [List.foldl_cons]
      exact ih hx (max a y)

theorem le_listMax {l : List ℚ} {x : ℚ} (h : x ∈ l) : x ≤ listMax l := by
  cases l with
  | nil => simp at h
  | cons y t =>
    unfold listMax
    rcases List.mem_cons.mp h with rfl | hx
    · exact init_le_foldl_max t x
    · exact le_foldl_max hx y

theorem normalizeRisk_mem {scores : List ℚ} {q : ℚ} (h : q ∈ normalizeRisk scores) :
    0 ≤ q ∧ q < 100 := by
  unfold normalizeRisk at h
  obtain ⟨x, hx, rfl⟩ := List.mem_map.mp h
  have hmn := listMin_le hx
  have hmx := le_listMax hx
  set mn := listMin (scores.map (fun s => -s))
  set mx := listMax (scores.map (fun s => -s))
  have hd : (0 : ℚ) < mx - mn + 1/1000000000 := by linarith
  constructor
  · have hnum : (0 : ℚ) ≤ x - mn := by linarith
    have := div_nonneg hnum (le_of_lt hd)
    nlinarith
  · have h1 : (x - mn) / (mx - mn + 1/1000000000) < 1 := by
      rw [div_lt_one hd]
      linarith
    nlinarith

theorem risk_round_mem {scores : List ℚ} {q : ℚ} (h : q ∈ normalizeRisk scores) :
    0 ≤ pyRound2 q ∧ pyRound2 q ≤ 100 := by
  obtain ⟨h0, h1⟩ := normalizeRisk_mem h
  exact pyRound2_mem h0 h1

/-- The scored frame `fit_and_score` builds (lines 143-162 of `ml_pipeline.py`). -/
def fitScored {P F : Type} (lib : SKLib P F) (dfFeat df : DF) : DF :=
  let prep := lib.fitPrep dfFeat
  let forest := lib.fitForest (lib.transform prep dfFeat)
  let scores := lib.scoreSamples forest (lib.transform prep dfFeat)
  let risk := normalizeRisk scores
  let preds := lib.predictModel forest (lib.transform prep dfFeat)
  (((((df.setCol "risk_score" (risk.map (fun q => Val.num (pyRound2 q)))).setCol
      "anomaly_flag" (preds.map (fun p => Val.bool (p == -1)))).setCol
      "hour" (dfFeat.colD "hour")).setCol
      "dayofweek" (dfFeat.colD "dayofweek")).setCol
      "is_weekend" (dfFeat.colD "is_weekend")).setCol
      "is_after_hours" (dfFeat.colD "is_after_hours")

/-- The scored frame `predict_new_data` builds (lines 192-209). -/
def predScored {P F : Type} (lib : SKLib P F) (prep : P) (forest : F)
    (dfFeat df : DF) : DF :=
  let scores := lib.scoreSamples forest (lib.transform prep dfFeat)
  let risk := normalizeRisk scores
  let preds := lib.predictModel forest (lib.transform prep dfFeat)
  (df.setCol "risk_score" (risk.map (fun q => Val.num (pyRound2 q)))).setCol
    "anomaly_flag" (preds.map (fun p => Val.bool (p == -1)))

theorem fit_and_score_inv {P F : Type} {lib : SKLib P F} {std : List ℚ → ℚ}
    {ad ad' : AnomalyDetector P F} {df scored : DF}
    (hok : fit_and_score lib std ad df = Except.ok (ad', scored)) :
    ∃ dfFeat, engineer_features std df = Except.ok dfFeat ∧
      ¬ dfFeat.rows.length = 0 ∧
      ad' = { ad with
        pipeline := some (lib.fitPrep dfFeat,
          lib.fitForest (lib.transform (lib.fitPrep dfFeat) dfFeat))
        feature_columns := some dfFeat.header } ∧
      scored = fitScored lib dfFeat df := by
  unfold fit_and_score at hok
  obtain ⟨dfFeat, heng, hok⟩ := bind_ok_inv hok
  by_cases hz : dfFeat.rows.length = 0
  · rw [if_pos hz] at hok
    cases hok
  · rw [if_neg hz] at hok
    simp only [pure, Except.pure, Except.ok.injEq, Prod.mk.injEq] at hok
    exact ⟨dfFeat, heng, hz, hok.1.symm, hok.2.symm⟩

theorem predict_new_data_inv {P F : Type} {lib : SKLib P F} {std : List ℚ → ℚ}
    {ad : AnomalyDetector P F} {df : DF} {out : DF × List String}
    {prep : P} {forest : F} {fcols : List String}
    (hp : ad.pipeline = some (prep, forest)) (hf : ad.feature_columns = some fcols)
    (hok : predict_new_data lib std ad df = Except.ok out) :
    ∃ dfFeat0 dfFeat, engineer_features std df = Except.ok dfFeat0 ∧
      (reconcileFeatures fcols dfFeat0).1.select fcols = Except.ok dfFeat ∧
      out = (predScored lib prep forest dfFeat df, (reconcileFeatures fcols dfFeat0).2) := by
  unfold predict_new_data at hok
  rw [hp, hf] at hok
  obtain ⟨dfFeat0, heng, hok⟩ := bind_ok_inv hok
  rcases hr : reconcileFeatures fcols dfFeat0 with ⟨dfFeat1, warns⟩
  rw [hr] at hok
  obtain ⟨dfFeat, hsel, hok⟩ := bind_ok_inv hok
  simp only [pure, Except.pure, Except.ok.injEq] at hok
  refine ⟨dfFeat0, dfFeat, heng, ?_, ?_⟩
  · rw [hr]
    exact hsel
  · rw [hr, ← hok]
    rfl

theorem fitScored_risk_mem {P F : Type} (lib : SKLib P F) {dfFeat df : DF} (hWF : df.WF)
    {v : Val} (hv : v ∈ (fitScored lib dfFeat df).colD "risk_score") :
    ∃ q ∈ normalizeRisk (lib.scoreSamples
        (lib.fitForest (lib.transform (lib.fitPrep dfFeat) dfFeat))
        (lib.transform (lib.fitPrep dfFeat) dfFeat)),
      v = Val.num (pyRound2 q) := by
  unfold fitScored at hv
  have hv1 := mem_colD_setCol_ne
    (setCol_WF (setCol_WF (setCol_WF (setCol_WF (setCol_WF hWF _ _) _ _) _ _) _ _) _ _)
    (by decide) hv
  have hv2 := mem_colD_setCol_ne
    (setCol_WF (setCol_WF (setCol_WF (setCol_WF hWF _ _) _ _) _ _) _ _) (by decide) hv1
  have hv3 := mem_colD_setCol_ne
    (setCol_WF (setCol_WF (setCol_WF hWF _ _) _ _) _ _) (by decide) hv2
  have hv4 := mem_colD_setCol_ne (setCol_WF (setCol_WF hWF _ _) _ _) (by decide) hv3
  have hv5 := mem_colD_setCol_ne (setCol_WF hWF _ _) (by decide) hv4
  have hv6 := mem_colD_setCol_self hWF hv5
  obtain ⟨q, hq, rfl⟩ := List.mem_map.mp hv6
  exact ⟨q, hq, rfl⟩

theorem predScored_risk_mem {P F : Type} (lib : SKLib P F) {prep : P} {forest : F}
    {dfFeat df : DF} (hWF : df.WF) {v : Val}
    (hv : v ∈ (predScored lib prep forest dfFeat df).colD "risk_score") :
    ∃ q ∈ normalizeRisk (lib.scoreSamples forest (lib.transform prep dfFeat)),
      v = Val.num (pyRound2 q) := by
  unfold predScored at hv
  have hv1 := mem_colD_setCol_ne (setCol_WF hWF _ _) (by decide) hv
  have hv2 := mem_colD_setCol_self hWF hv1
  obtain ⟨q, hq, rfl⟩ := List.mem_map.mp hv2
  exact ⟨q, hq, rfl⟩

/-- C4: for any fitted model and any well-formed batch, every value in the
risk_score column of the table produced by fit_and_score or predict_new_data
is a number in [0, 100]: raw scores are sign-inverted, min-max scaled against
the current batch's min and max with the 1e-9 denominator guard (giving a
value in [0, 100)), and rounded to two decimals (staying within [0, 100]). -/
theorem risk_score_in_range {P F : Type} (lib : SKLib P F) (std : List ℚ → ℚ)
    (ad ad' : AnomalyDetector P F) (df scored : DF) (out : DF × List String)
    (hWF : df.WF) :
    (fit_and_score lib std ad df = Except.ok (ad', scored) →
      ∀ v ∈ scored.colD "risk_score", ∃ q, v = Val.num q ∧ 0 ≤ q ∧ q ≤ 100) ∧
    (predict_new_data lib std ad df = Except.ok out →
      ∀ v ∈ out.1.colD "risk_score", ∃ q, v = Val.num q ∧ 0 ≤ q ∧ q ≤ 100) := by
  constructor
  · intro hok v hv
    obtain ⟨dfFeat, heng, hz, had, hscored⟩ := fit_and_score_inv hok
    rw [hscored] at hv
    obtain ⟨q, hq, rfl⟩ := fitScored_risk_mem lib hWF hv
    exact ⟨pyRound2 q, rfl, risk_round_mem hq⟩
  · intro hok v hv
    rcases hp : ad.pipeline with _ | pf
    · unfold predict_new_data at hok
      rcases hf : ad.feature_columns with _ | fcols <;> rw [hp, hf] at hok <;> cases hok
    rcases pf with ⟨prep, forest⟩
    rcases hf : ad.feature_columns with _ | fcols
    · unfold predict_new_data at hok
      rw [hp, hf] at hok
      cases hok
    obtain ⟨dfFeat0, dfFeat, heng, hsel, hout⟩ := predict_new_data_inv hp hf hok
    rw [hout] at hv
    obtain ⟨q, hq, rfl⟩ := predScored_risk_mem lib hWF hv
    exact ⟨pyRound2 q, rfl, risk_round_mem hq⟩

theorem colD_length_of_mem {df : DF} {n : String} (h : n ∈ df.header) :
    (df.colD n).length = df.rows.length := by
  obtain ⟨i, hi⟩ := idxOf?_mem h
  unfold DF.colD DF.col?
  rw [hi]
  simp

theorem setCol_rows_le {df : DF} {L : Nat} (h : df.rows.length ≤ L) (n : String)
    (vs : List Val) : (df.setCol n vs).rows.length ≤ L := by
  rw [rows_length_setCol]
  exact le_trans (min_le_left _ _) h

theorem filter_not_mem_self (l : List String) :
    l.filter (fun c => decide (c ∉ l)) = [] := by
  rw [List.filter_eq_nil_iff]
  intro a ha
  simp [ha]

/-- C5: calling predict_new_data with the fitted model on the very batch it
was fitted on succeeds with no missing-feature warnings and yields exactly the
same anomaly_flag column as the scored table that fit_and_score returned for
that batch; the model is reused, not refitted (predict_new_data contains no
fit call). -/
theorem predict_matches_fit_flags {P F : Type} (lib : SKLib P F) (std : List ℚ → ℚ)
    (ad ad' : AnomalyDetector P F) (df scored : DF) (hWF : df.WF)
    (hfit : fit_and_score lib std ad df = Except.ok (ad', scored)) :
    ∃ scored', predict_new_data lib std ad' df = Except.ok (scored', []) ∧
      scored'.colD "anomaly_flag" = scored.colD "anomaly_flag" := by
  obtain ⟨dfFeat, heng, hz, had, hscored⟩ := fit_and_score_inv hfit
  obtain ⟨⟨hWFf, hrows⟩, hhour, hdow, hwk, hah⟩ := engineer_features_inv hWF heng
  have hp : ad'.pipeline = some (lib.fitPrep dfFeat,
      lib.fitForest (lib.transform (lib.fitPrep dfFeat) dfFeat)) := by rw [had]
  have hfc : ad'.feature_columns = some dfFeat.header := by rw [had]
  have hrec : reconcileFeatures dfFeat.header dfFeat = (dfFeat, []) := by
    unfold reconcileFeatures
    rw [filter_not_mem_self]
    simp
  have hsel : dfFeat.select dfFeat.header = Except.ok dfFeat := select_self hWFf
  refine ⟨predScored lib (lib.fitPrep dfFeat)
    (lib.fitForest (lib.transform (lib.fitPrep dfFeat) dfFeat)) dfFeat df, ?_, ?_⟩
  · unfold predict_new_data
    rw [hp, hfc]
    simp only [heng, hrec, hsel, bind, Except.bind, pure, Except.pure]
    rfl
  · rw [hscored]
    unfold fitScored predScored
    have hvh : (dfFeat.colD "hour").length = df.rows.length := by
      rw [colD_length_of_mem hhour, hrows]
    have hvd : (dfFeat.colD "dayofweek").length = df.rows.length := by
      rw [colD_length_of_mem hdow, hrows]
    have hvw : (dfFeat.colD "is_weekend").length = df.rows.length := by
      rw [colD_length_of_mem hwk, hrows]
    have hva : (dfFeat.colD "is_after_hours").length = df.rows.length := by
      rw [colD_length_of_mem hah, hrows]
    rw [colD_setCol_ne (setCol_WF (setCol_WF (setCol_WF (setCol_WF (setCol_WF hWF _ _)
        _ _) _ _) _ _) _ _) _ (by decide) (by
      rw [hva]
      exact setCol_rows_le (setCol_rows_le (setCol_rows_le (setCol_rows_le (setCol_rows_le
        (le_refl df.rows.length) _ _) _ _) _ _) _ _) _ _)]
    rw [colD_setCol_ne (setCol_WF (setCol_WF (setCol_WF (setCol_WF hWF _ _) _ _) _ _) _ _)
      _ (by decide) (by
      rw [hvw]
      exact setCol_rows_le (setCol_rows_le (setCol_rows_le (setCol_rows_le
        (le_refl df.rows.length) _ _) _ _) _ _) _ _)]
    rw [colD_setCol_ne (setCol_WF (setCol_WF (setCol_WF hWF _ _) _ _) _ _) _ (by decide) (by
      rw [hvd]
      exact setCol_rows_le (setCol_rows_le (setCol_rows_le
        (le_refl df.rows.length) _ _) _ _) _ _)]
    rw [colD_setCol_ne (setCol_WF (setCol_WF hWF _ _) _ _) _ (by decide) (by
      rw [hvh]
      exact setCol_rows_le (setCol_rows_le (le_refl df.rows.length) _ _) _ _)]

theorem fold_fill_unchanged {ms : List String} {df : DF} (hWF : df.WF) {c : String}
    (hc : c ∉ ms) :
    (ms.foldl (fun d m => d.setCol m (List.replicate d.rows.length (Val.num 0))) df).colD c
        = df.colD c ∧
    (ms.foldl (fun d m => d.setCol m (List.replicate d.rows.length (Val.num 0)))
        df).rows.length = df.rows.length ∧
    (ms.foldl (fun d m => d.setCol m (List.replicate d.rows.length (Val.num 0))) df).WF := by
  induction ms generalizing df with
  | nil => exact ⟨rfl, rfl, hWF⟩
  | cons m tl ih =>
    have hcm : c ≠ m := fun hx => hc (by simp [hx])
    have hct : c ∉ tl := fun hx => hc (by simp [hx])
    have hlen1 : (df.setCol m (List.replicate df.rows.length (Val.num 0))).rows.length
        = df.rows.length := by
      rw [rows_length_setCol]
      simp
    obtain ⟨ih1, ih2, ih3⟩ := ih (setCol_WF hWF m _) hct
    simp only [List.foldl_cons]
    refine ⟨?_, ?_, ih3⟩
    · rw [ih1, colD_setCol_ne hWF _ hcm (by simp)]
    · rw [ih2, hlen1]

theorem fold_fill_colD {ms : List String} {df : DF} (hWF : df.WF) {c : String}
    (hc : c ∈ ms) :
    (ms.foldl (fun d m => d.setCol m (List.replicate d.rows.length (Val.num 0))) df).colD c
      = List.replicate df.rows.length (Val.num 0) := by
  induction ms generalizing df with
  | nil => simp at hc
  | cons m tl ih =>
    simp only [List.foldl_cons]
    have hlen1 : (df.setCol m (List.replicate df.rows.length (Val.num 0))).rows.length
        = df.rows.length := by
      rw [rows_length_setCol]
      simp
    by_cases hct : c ∈ tl
    · rw [ih (setCol_WF hWF m _) hct, hlen1]
    · have hcm : c = m := by
        rcases List.mem_cons.mp hc with h | h
        · exact h
        · exact absurd h hct
      subst hcm
      rw [(fold_fill_unchanged (setCol_WF hWF c _) hct).1]
      exact colD_setCol_self hWF _ (by simp)

theorem fold_fill_header {ms : List String} {df : DF} {n : String}
    (h : n ∈ df.header ∨ n ∈ ms) :
    n ∈ (ms.foldl (fun d m => d.setCol m (List.replicate d.rows.length (Val.num 0)))
      df).header := by
  induction ms generalizing df with
  | nil =>
    rcases h with h | h
    · exact h
    · simp at h
  | cons m tl ih =>
    simp only [List.foldl_cons]
    refine ih ?_
    rcases h with h | h
    · exact Or.inl (mem_header_setCol.mpr (Or.inl h))
    · rcases List.mem_cons.mp h with rfl | h
      · exact Or.inl (mem_header_setCol.mpr (Or.inr rfl))
      · exact Or.inr h

/-- C6 helper: `predict_new_data` reads the detector only through `pipeline`
and `feature_columns`. -/
theorem predict_new_data_congr {P F : Type} (lib : SKLib P F) (std : List ℚ → ℚ)
    (a b : AnomalyDetector P F) (df : DF) (h1 : a.pipeline = b.pipeline)
    (h2 : a.feature_columns = b.feature_columns) :
    predict_new_data lib std a df = predict_new_data lib std b df := by
  unfold predict_new_data
  rw [h1, h2]

/-- C6: for any fitted detector, save_model followed by load_model on a
fresh detector restores identical contamination, n_estimators, feature-column
list and fitted pipeline (which carries the categorical schema frozen at fit
time), and scoring the same data with the restored detector gives results
identical to scoring with the original. -/
theorem save_load_roundtrip {P F : Type} (lib : SKLib P F) (std : List ℚ → ℚ)
    (ad ad₂ : AnomalyDetector P F) (pf : P × F) (df : DF)
    (h : ad.pipeline = some pf) :
    ∃ m : ModelFile P F, save_model ad = Except.ok (FileContent.valid m) ∧
      (load_model ad₂ (some (FileContent.valid m))).2 = true ∧
      (load_model ad₂ (some (FileContent.valid m))).1.contamination = ad.contamination ∧
      (load_model ad₂ (some (FileContent.valid m))).1.n_estimators = ad.n_estimators ∧
      (load_model ad₂ (some (FileContent.valid m))).1.feature_columns = ad.feature_columns ∧
      (load_model ad₂ (some (FileContent.valid m))).1.pipeline = ad.pipeline ∧
      predict_new_data lib std (load_model ad₂ (some (FileContent.valid m))).1 df
        = predict_new_data lib std ad df := by
  refine ⟨⟨pf, ad.feature_columns, ad.contamination, ad.n_estimators⟩,
    ?_, rfl, rfl, rfl, rfl, ?_, ?_⟩
  · unfold save_model
    rw [h]
  · show some pf = ad.pipeline
    exact h.symm
  · exact predict_new_data_congr lib std _ ad df (show some pf = ad.pipeline from h.symm) rfl

/-- C7: for a fitted model, scoring a new batch from which a fit-time
feature column is absent never raises: predict_new_data succeeds, emits a
non-fatal missing-features diagnostic, and the reconciliation step fills the
missing column with the neutral default 0 for every row. -/
theorem missing_feature_filled_zero {P F : Type} (lib : SKLib P F) (std : List ℚ → ℚ)
    (ad : AnomalyDetector P F) (df dfFeat : DF) (prep : P) (forest : F)
    (fcols : List String) (c : String)
    (hp : ad.pipeline = some (prep, forest)) (hf : ad.feature_columns = some fcols)
    (hWF : df.WF) (heng : engineer_features std df = Except.ok dfFeat)
    (hc : c ∈ fcols) (hmiss : c ∉ dfFeat.header) :
    (∃ res, predict_new_data lib std ad df = Except.ok res ∧ res.2 ≠ []) ∧
    (reconcileFeatures fcols dfFeat).1.colD c
      = List.replicate dfFeat.rows.length (Val.num 0) := by
  have hWFf : dfFeat.WF := (engineer_features_inv hWF heng).1.1
  have hcm : c ∈ fcols.filter (fun x => decide (x ∉ dfFeat.header)) :=
    List.mem_filter.mpr ⟨hc, by simpa using hmiss⟩
  have hwarn : (reconcileFeatures fcols dfFeat).2 ≠ [] := by
    unfold reconcileFeatures
    simp only [List.isEmpty_eq_false.mpr (List.ne_nil_of_mem hcm), Bool.false_eq_true,
      if_false]
    simp
  have hheader : ∀ n ∈ fcols, n ∈ (reconcileFeatures fcols dfFeat).1.header := by
    intro n hn
    unfold reconcileFeatures
    by_cases hnm : n ∈ dfFeat.header
    · exact fold_fill_header (Or.inl hnm)
    · exact fold_fill_header (Or.inr (List.mem_filter.mpr ⟨hn, by simpa using hnm⟩))
  obtain ⟨d, hsel⟩ := select_ok_of_mem hheader
  constructor
  · refine ⟨(predScored lib prep forest d df, (reconcileFeatures fcols dfFeat).2),
      ?_, hwarn⟩
    unfold predict_new_data
    rw [hp, hf]
    rcases hr : reconcileFeatures fcols dfFeat with ⟨d1, w⟩
    rw [hr] at hsel
    simp only [heng, hr, hsel, bind, Except.bind, pure, Except.pure]
    rfl
  · unfold reconcileFeatures
    exact fold_fill_colD hWFf hcm

/-- The empty event batch: the six schema columns and no rows. -/
def emptyBatch : DF :=
  ⟨["event_id", "user_id", "file_type", "file_size_MB", "access_time", "action"], []⟩

/-- The header `engineer_features` produces from the schema columns. -/
def engineeredEmptyHeader : List String :=
  ["event_id", "user_id", "file_type", "file_size_MB", "access_time", "action",
   "hour", "dayofweek", "is_weekend", "is_after_hours", "avg_file_size",
   "std_file_size", "total_access", "download_count", "download_ratio",
   "file_type_risk", "is_large_file", "size_risk_score"]

/-- C2 (amended): on an empty event batch engineer_features returns an empty
feature table without raising, and fit_and_score fails with the underlying
library's ValueError raised by the empty-array check of the sklearn fit — not
with a dedicated ValidationError, which does not exist in the code. -/
theorem empty_batch_behavior {P F : Type} (lib : SKLib P F) (std : List ℚ → ℚ)
    (ad : AnomalyDetector P F) :
    engineer_features std emptyBatch = Except.ok ⟨engineeredEmptyHeader, []⟩ ∧
    fit_and_score lib std ad emptyBatch
      = Except.error (PyError.valueError "Found array with 0 sample(s)") := by
  have heng : engineer_features std emptyBatch
      = Except.ok ⟨engineeredEmptyHeader, []⟩ := rfl
  refine ⟨heng, ?_⟩
  unfold fit_and_score
  rw [heng]
  rfl

/-- Trivial std function for concrete instances. -/
def std0 : List ℚ → ℚ := fun _ => 0

/-- A concrete sklearn stand-in over unit states: one feature per row, score 0,
every row predicted as an outlier. -/
def libU : SKLib Unit Unit :=
  ⟨fun _ => (), fun _ df => df.rows.map (fun _ => [0]), fun _ => (),
   fun _ m => m.map (fun _ => 0), fun _ m => m.map (fun _ => -1)⟩

/-- A freshly constructed, unfitted detector (contamination 0.02, 300 trees). -/
def adU : AnomalyDetector Unit Unit := ⟨2/100, 300, none, none⟩

/-- C2 (counterexample): at the concrete empty batch, engineer_features
returns empty output (it does not raise), and fit_and_score raises the
library ValueError, not a ValidationError — refuting the claim that these
calls raise a ValidationError rather than crashing with another error or
returning empty output. -/
theorem empty_batch_no_validation_error :
    engineer_features std0 emptyBatch = Except.ok ⟨engineeredEmptyHeader, []⟩ ∧
    fit_and_score libU std0 adU emptyBatch
      = Except.error (PyError.valueError "Found array with 0 sample(s)") ∧
    fit_and_score libU std0 adU emptyBatch ≠ Except.error PyError.validationError := by
  have heng : engineer_features std0 emptyBatch
      = Except.ok ⟨engineeredEmptyHeader, []⟩ := rfl
  have hfit : fit_and_score libU std0 adU emptyBatch
      = Except.error (PyError.valueError "Found array with 0 sample(s)") := by
    unfold fit_and_score
    rw [heng]
    rfl
  refine ⟨heng, hfit, ?_⟩
  rw [hfit]
  simp

/-- C3 (amended): load_model never raises.  It returns False and leaves the
detector unchanged when the persisted file is absent; it also returns False
(after the except clause catches and logs the deserialization error) when the
file exists but cannot be deserialized; it returns True and restores the
saved fields from a readable bundle. -/
theorem load_model_total_behavior {P F : Type} (ad : AnomalyDetector P F) :
    load_model ad none = (ad, false) ∧
    load_model ad (some FileContent.corrupt) = (ad, false) ∧
    ∀ m : ModelFile P F,
      load_model ad (some (FileContent.valid m))
        = ({ ad with
            pipeline := some m.pipeline
            feature_columns := m.feature_columns
            contamination := m.contamination
            n_estimators := m.n_estimators }, true) :=
  ⟨rfl, rfl, fun _ => rfl⟩

/-- C3 (counterexample): on an existing but undeserializable model file the
body of the try block raises (joblib.load fails), yet load_model catches the
error and returns False — exactly the same observable result as the absent
file — rather than raising a CorruptArtifact error as the claim requires. -/
theorem load_model_corrupt_returns_false :
    load_model_body adU (some FileContent.corrupt)
        = Except.error (PyError.valueError "invalid load key") ∧
    load_model adU (some FileContent.corrupt) = (adU, false) ∧
    load_model adU none = (adU, false) :=
  ⟨rfl, rfl, rfl⟩

/-! ### Concrete one-row instances for the pipeline witnesses -/

/-- A one-row event batch. -/
def dfW : DF :=
  ⟨["event_id", "user_id", "file_type", "file_size_MB", "access_time", "action"],
   [[Val.str "e1", Val.str "u1", Val.str "PDF", Val.num 1, Val.time 0, Val.str "view"]]⟩

/-- The engineered features of `dfW` (checked below by reduction). -/
def dfFeatW : DF :=
  ⟨engineeredEmptyHeader,
   [[Val.str "e1", Val.str "u1", Val.str "PDF", Val.num 1, Val.time 0, Val.str "view",
     Val.num 0, Val.num 0, Val.num 0, Val.num 1, Val.num 1, Val.num 0, Val.num 1,
     Val.num 0, Val.num 0, Val.num 7, Val.num 0, Val.num 1]]⟩

/-- The scored frame `fit_and_score libU std0 adU dfW` returns. -/
def scoredW : DF :=
  ⟨["event_id", "user_id", "file_type", "file_size_MB", "access_time", "action",
    "risk_score", "anomaly_flag", "hour", "dayofweek", "is_weekend", "is_after_hours"],
   [[Val.str "e1", Val.str "u1", Val.str "PDF", Val.num 1, Val.time 0, Val.str "view",
     Val.num 0, Val.bool true, Val.num 0, Val.num 0, Val.num 0, Val.num 1]]⟩

/-- The fitted detector state after `fit_and_score libU std0 adU dfW`. -/
def adW : AnomalyDetector Unit Unit := ⟨2/100, 300, some ((), ()), some engineeredEmptyHeader⟩

theorem dfW_WF : dfW.WF := by
  refine ⟨by decide, ?_⟩
  intro row hrow
  simp only [dfW, List.mem_singleton] at hrow
  subst hrow
  rfl

theorem fitW_eval : fit_and_score libU std0 adU dfW = Except.ok (adW, scoredW) := by
  with_unfolding_all rfl

theorem memW_eval : Val.num 0 ∈ scoredW.colD "risk_score" := by
  with_unfolding_all decide

/-- C4 witness. -/
theorem risk_score_in_range_witness :
    dfW.WF ∧ fit_and_score libU std0 adU dfW = Except.ok (adW, scoredW) ∧
    Val.num 0 ∈ scoredW.colD "risk_score" ∧
    ∃ q, Val.num 0 = Val.num q ∧ 0 ≤ q ∧ q ≤ 100 :=
  ⟨dfW_WF, fitW_eval, memW_eval,
    (risk_score_in_range libU std0 adU adW dfW scoredW (scoredW, []) dfW_WF).1
      fitW_eval (Val.num 0) memW_eval⟩

/-- C5 witness. -/
theorem predict_matches_fit_flags_witness :
    dfW.WF ∧ fit_and_score libU std0 adU dfW = Except.ok (adW, scoredW) ∧
    ∃ scored', predict_new_data libU std0 adW dfW = Except.ok (scored', []) ∧
      scored'.colD "anomaly_flag" = scoredW.colD "anomaly_flag" :=
  ⟨dfW_WF, fitW_eval,
    predict_matches_fit_flags libU std0 adU adW dfW scoredW dfW_WF fitW_eval⟩

/-- C6 witness. -/
theorem save_load_roundtrip_witness :
    adW.pipeline = some ((), ()) ∧
    (∃ m : ModelFile Unit Unit, save_model adW = Except.ok (FileContent.valid m) ∧
      (load_model adU (some (FileContent.valid m))).2 = true ∧
      (load_model adU (some (FileContent.valid m))).1.contamination = adW.contamination ∧
      (load_model adU (some (FileContent.valid m))).1.n_estimators = adW.n_estimators ∧
      (load_model adU (some (FileContent.valid m))).1.feature_columns = adW.feature_columns ∧
      (load_model adU (some (FileContent.valid m))).1.pipeline = adW.pipeline ∧
      predict_new_data libU std0 (load_model adU (some (FileContent.valid m))).1 dfW
        = predict_new_data libU std0 adW dfW) :=
  ⟨rfl, save_load_roundtrip libU std0 adW adU ((), ()) dfW rfl⟩

/-- The training-time feature columns used by the C7 witness: the engineered
header plus a column the new batch will not have. -/
def fcolsW : List String := engineeredEmptyHeader ++ ["extra"]

/-- A fitted detector whose stored feature columns include `"extra"`. -/
def adM : AnomalyDetector Unit Unit := ⟨2/100, 300, some ((), ()), some fcolsW⟩

theorem featW_eval : engineer_features std0 dfW = Except.ok dfFeatW := by
  with_unfolding_all rfl

/-- C7 witness. -/
theorem missing_feature_filled_zero_witness :
    adM.pipeline = some ((), ()) ∧ adM.feature_columns = some fcolsW ∧ dfW.WF ∧
    engineer_features std0 dfW = Except.ok dfFeatW ∧
    "extra" ∈ fcolsW ∧ "extra" ∉ dfFeatW.header ∧
    ((∃ res, predict_new_data libU std0 adM dfW = Except.ok res ∧ res.2 ≠ []) ∧
      (reconcileFeatures fcolsW dfFeatW).1.colD "extra"
        = List.replicate dfFeatW.rows.length (Val.num 0)) :=
  ⟨rfl, rfl, dfW_WF, featW_eval, by decide, by decide,
    missing_feature_filled_zero libU std0 adM dfW dfFeatW () () fcolsW "extra"
      rfl rfl dfW_WF featW_eval (by decide) (by decide)⟩
